import Mathlib

/-!
# Single-tape Turing machine simulator (`src/main.cpp`)

Shallow embedding of class `TuringMachine` and of the functions it is made of.

Conventions of the embedding.

* `std::string` is a `List Char`; a `Char` stands for one C++ `char`.
* `int pointer` is an `Int` that the operations keep in the range of a 32-bit `int`:
  `pointer++` is followed by `wrapInt`, the wrap-around modulo `2^32` by which the
  overflow at `INT_MAX` shows. `pointer--` is made with `pointer > 0` only and cannot
  overflow.
* `size_t` arithmetic is spelled out where the source mixes it with `int`
  (`pointer < line.size() - 1` in `moveRight`).
* `std::map<std::string, std::vector<std::string>>` is an association list whose keys
  are kept in increasing order by `operator[]`.
* Operations with undefined behaviour, and exceptions nobody catches, end the program:
  the functions that contain one return `Except Fault _`.
* The `while` loop of `run` takes a fuel argument that bounds the number of times its
  condition is evaluated; `none` means the fuel was used up.
* Files are an environment (`Env`) the machine is run in; it does not change during a
  run.
-/

/-- Text, as held by a `std::string`. -/
abbrev Str := List Char

/-- The `enum class Direction` of the source. -/
inductive Direction where
  | RIGHT
  | LEFT
  | STAY
  deriving DecidableEq, Repr

/-- The `enum class Error` of the source. -/
inductive Error where
  | NO_ERROR
  | OPENING_FILE
  | INCORRECT_DIRECTION
  | INCORRECT_STATE
  | NO_INSTRUCTION_FOR_LETTER
  deriving DecidableEq, Repr

/-- Ways in which the program stops without `run` returning. -/
inductive Fault where
  /-- Access `line[pointer]`, read with `pointer` outside `[0, line.size()]` or written
  outside `[0, line.size())`. -/
  | tapeIndex
  /-- Call `commands.at(key)` with a key that is not in the map (`std::out_of_range`). -/
  | missingKey
  /-- Statement `return 0;` in a function that returns `std::string`: a string built
  from a null pointer. -/
  | nullString
  /-- Expression `commands.begin()->first` on an empty map. -/
  | emptyTable
  deriving DecidableEq, Repr

/-- The `commands` member: state name ↦ the instructions of that state, in the order
they were pushed. -/
abbrev Commands := List (Str × List Str)

/-- The data members of class `TuringMachine`. -/
structure TuringMachine where
  stop : Bool
  stepByStep : Bool
  pointer : Int
  err : Error
  line : Str
  curState : Str
  initState : Str
  inputFile : Str
  instructFile : Str
  outputFile : Str
  commands : Commands
  deriving DecidableEq, Repr

/-- The files the program sees, the same from the start of a run to its end:
`openRead f` is the content of `f` when an `ifstream` on it opens, and `openAppend f`
tells whether an `ofstream` on `f` in append mode opens. -/
structure Env where
  openRead : Str → Option Str
  openAppend : Str → Bool

deriving instance DecidableEq for Except

/-- The NUL character, which `s[0]` yields on an empty `std::string`. -/
def NUL : Char := Char.ofNat 0

/-- The largest `size_t`. -/
def SIZE_MAX : Nat := 2 ^ 64 - 1

/-- The largest `int`. -/
def INT_MAX : Int := 2 ^ 31 - 1

/-- Value an `int` variable holds after a result `x` has been stored in it: `x` itself
in the range of `int`, and `x` wrapped around modulo `2^32` outside of it. -/
def wrapInt (x : Int) : Int := (x + 2 ^ 31) % 2 ^ 32 - 2 ^ 31

/-- Value of an `int` after conversion to `size_t`: a negative value wraps around. -/
def toSizeT (p : Int) : Int := if p < 0 then p + 2 ^ 64 else p

/-- Value of `line.size() - 1`, computed in `size_t`: it wraps to `SIZE_MAX` when the
string is empty. -/
def sizeMinusOne (n : Nat) : Int := if n = 0 then (SIZE_MAX : Int) else (n : Int) - 1

/-- The whitespace of `std::isspace` in the "C" locale, which `operator>>` skips. -/
def isSpace (c : Char) : Bool :=
  c = ' ' || c = '\t' || c = '\n' || c = Char.ofNat 11 || c = Char.ofNat 12 || c = '\r'

namespace TuringMachine

/-! ## `std::map` operations -/

/-- Comparison `a < b` of two `std::string`s. -/
def strLt : Str → Str → Bool
  | [], [] => false
  | [], _ :: _ => true
  | _ :: _, [] => false
  | a :: as, b :: bs =>
    if a.toNat < b.toNat then true
    else if b.toNat < a.toNat then false
    else strLt as bs

/-- Lookup `commands.at(key)`; `none` when the key is absent (the call throws). -/
def mapAt : Commands → Str → Option (List Str)
  | [], _ => none
  | (k, v) :: rest, key => if k = key then some v else mapAt rest key

/-- Membership test `commands.count(s)`. -/
def mapCount : Commands → Str → Nat
  | [], _ => 0
  | (k, _) :: rest, s => if k = s then 1 else mapCount rest s

/-- Statement `commands[key].push_back(cur)`: a new key is inserted at its place in the
order of the keys. -/
def mapPush : Commands → Str → Str → Commands
  | [], key, cur => [(key, [cur])]
  | (k, v) :: rest, key, cur =>
    if k = key then (k, v ++ [cur]) :: rest
    else if strLt key k then (key, [cur]) :: (k, v) :: rest
    else (k, v) :: mapPush rest key cur

/-- Expression `commands.begin()->first`; `none` on an empty map. -/
def mapBegin : Commands → Option Str
  | [] => none
  | (k, _) :: _ => some k

/-! ## The tape -/

/-- Body of `moveLeft`. -/
def moveLeft (m : TuringMachine) : TuringMachine :=
  if m.pointer > 0 then
    { m with pointer := m.pointer - 1 }
  else
    { m with line := ' ' :: m.line }

/-- Body of `moveRight`. The comparison is made in `size_t`, and `pointer++` in `int`. -/
def moveRight (m : TuringMachine) : TuringMachine :=
  if toSizeT m.pointer < sizeMinusOne m.line.length then
    { m with pointer := wrapInt (m.pointer + 1) }
  else
    { m with line := m.line ++ [' '], pointer := wrapInt (m.pointer + 1) }

/-- Body of `changeState`. -/
def changeState (m : TuringMachine) (state : Str) : TuringMachine :=
  { m with curState := state }

/-- Read access `line[pointer]`: the character at an index below `line.size()`, NUL at
`line.size()`, and nothing elsewhere. -/
def readAt (line : Str) (p : Int) : Option Char :=
  if p < 0 then none
  else if p.toNat < line.length then some (line.getD p.toNat NUL)
  else if p.toNat = line.length then some NUL
  else none

/-- Assignment `line[pointer] = c`: defined below `line.size()`, and at `line.size()`
only when `c` is NUL (the terminator may not be changed). -/
def writeAt (line : Str) (p : Int) (c : Char) : Option Str :=
  if p < 0 then none
  else if p.toNat < line.length then some (line.set p.toNat c)
  else if p.toNat = line.length ∧ c = NUL then some line
  else none

/-! ## Fields of an instruction -/

/-- The whitespace-delimited words that successive `s >> letter` extract from a
stream over `cmd`; `cur` is the word being read. -/
def wordsAux : Str → Str → List Str
  | [], cur => if cur = [] then [] else [cur]
  | c :: cs, cur =>
    if isSpace c then
      (if cur = [] then wordsAux cs [] else cur :: wordsAux cs [])
    else wordsAux cs (cur ++ [c])

/-- The words of a string. -/
def words (cmd : Str) : List Str := wordsAux cmd []

/-- The loop `while (pos != n && s >> letter) n++` of `get`, over the words that are
left in the stream. A failed extraction leaves `letter` as it was. -/
def getLoop (pos : Int) : List Str → Int → Str → Str
  | [], _, letter => letter
  | w :: ws, n, letter => if pos ≠ n then getLoop pos ws (n + 1) w else letter

/-- Body of `get`. -/
def get (cmd : Str) (pos : Int) : Str := getLoop pos (words cmd) (-1) []

/-- Body of `getReadLetter`. -/
def getReadLetter (cmd : Str) : Char :=
  let s := (get cmd 0).headD NUL
  if s = '_' then ' ' else s

/-- Body of `getWriteLetter`. -/
def getWriteLetter (cmd : Str) : Char :=
  let s := (get cmd 1).headD NUL
  if s = '_' then ' ' else s

/-- Body of `getDirection`: the machine (whose `err` may be set) and the direction. -/
def getDirection (m : TuringMachine) (cmd : Str) : TuringMachine × Direction :=
  let s := (get cmd 2).headD NUL
  if s = 'r' then (m, Direction.RIGHT)
  else if s = 'l' then (m, Direction.LEFT)
  else if s = '*' then (m, Direction.STAY)
  else ({ m with err := Error.INCORRECT_DIRECTION }, Direction.STAY)

/-- Body of `getNextState`: the machine (whose `stop` or `err` may be set) and the
name returned. -/
def getNextState (m : TuringMachine) (cmd : Str) : TuringMachine × Str :=
  let s := get cmd 3
  if s.take 4 = "halt".toList then ({ m with stop := true }, s)
  else if mapCount m.commands s = 0 then ({ m with err := Error.INCORRECT_STATE }, s)
  else (m, s)

/-- Body of `writeLetter`. -/
def writeLetter (m : TuringMachine) (cmd : Str) : Except Fault TuringMachine :=
  let c := getWriteLetter cmd
  if c ≠ '*' then
    match writeAt m.line m.pointer c with
    | some line => .ok { m with line := line }
    | none => .error Fault.tapeIndex
  else .ok m

/-- Body of `move`. -/
def move (m : TuringMachine) (cmd : Str) : TuringMachine :=
  let r := getDirection m cmd
  if r.2 = Direction.RIGHT then moveRight r.1
  else if r.2 = Direction.LEFT then moveLeft r.1
  else r.1

/-! ## Lookup -/

/-- The `for` loop of `findLine`: `.inl s` when the loop returns `s`, `.inr d` when it
runs to its end with `default_cmd = d`. -/
def findLineLoop (curEl : Char) : List Str → Str → Str ⊕ Str
  | [], default_cmd => .inr default_cmd
  | s :: rest, default_cmd =>
    let c := getReadLetter s
    if c ≠ '*' ∧ c = curEl then .inl s
    else findLineLoop curEl rest (if c = '*' then s else default_cmd)

/-- Body of `findLine`. The last two statements set `err` and then build the returned
`std::string` from the null pointer `0`. -/
def findLine (m : TuringMachine) (key : Str) : Except Fault (TuringMachine × Str) :=
  match readAt m.line m.pointer with
  | none => .error Fault.tapeIndex
  | some curEl =>
    match mapAt m.commands key with
    | none => .error Fault.missingKey
    | some cmds =>
      match findLineLoop curEl cmds [] with
      | .inl s => .ok (m, s)
      | .inr default_cmd =>
        if default_cmd ≠ [] then .ok (m, default_cmd)
        else .error Fault.nullString

/-! ## Input -/

/-- The lines that successive `std::getline(in, tmp)` calls read from a file with the
given content, until a call fails; `acc` is the line being read. -/
def getlinesAux : Str → Str → List Str
  | [], acc => if acc = [] then [] else [acc]
  | c :: cs, acc => if c = '\n' then acc :: getlinesAux cs [] else getlinesAux cs (acc ++ [c])

/-- The lines of a file. -/
def getlines (content : Str) : List Str := getlinesAux content []

/-- Body of `readLine`: the first line of the input file becomes the tape. -/
def readLine (env : Env) (m : TuringMachine) : TuringMachine :=
  match env.openRead m.inputFile with
  | some content => { m with line := content.takeWhile (fun c => c ≠ '\n') }
  | none => { m with err := Error.OPENING_FILE }

/-- The `while` loop of `readInstructions` over the lines of the file; `cur` is the
local variable of that name, which `std::getline(s, cur)` leaves as it was when
`s >> key` has read up to the end of the line. -/
def readInstructionsLoop : List Str → Str → Commands → Commands
  | [], _, commands => commands
  | tmp :: rest, cur, commands =>
    if tmp.headD NUL = ';' then readInstructionsLoop rest cur commands
    else
      let s := tmp.dropWhile isSpace
      if s = [] then readInstructionsLoop rest cur commands
      else
        let key := s.takeWhile (fun c => !isSpace c)
        let after := s.dropWhile (fun c => !isSpace c)
        let cur1 := if after = [] then cur else after.takeWhile (fun c => c ≠ '\n')
        readInstructionsLoop rest cur1 (mapPush commands key cur1)

/-- Body of `readInstructions`. -/
def readInstructions (env : Env) (m : TuringMachine) : TuringMachine :=
  match env.openRead m.instructFile with
  | some content => { m with commands := readInstructionsLoop (getlines content) [] m.commands }
  | none => { m with err := Error.OPENING_FILE }

/-! ## Output -/

/-- Body of `print`, as far as the machine is concerned: what is printed changes
nothing, and `err` is set when the output file does not open. -/
def print (env : Env) (m : TuringMachine) : TuringMachine :=
  if m.outputFile = "console".toList then m
  else if env.openAppend m.outputFile then m
  else { m with err := Error.OPENING_FILE }

/-! ## The run loop -/

/-- What one pass through the body of the `while` loop of `run` leads to. -/
inductive Pass where
  /-- The body ran to its end: the machine and the local variable `state`. -/
  | next (m : TuringMachine) (state : Str)
  /-- The body left the loop through a `break`. -/
  | exit (m : TuringMachine)
  /-- The program stopped inside the body. -/
  | fault (f : Fault)
  deriving DecidableEq, Repr

/-- The body of the `while` loop of `run`, entered with the local variable `state`. -/
def pass (env : Env) (m : TuringMachine) (state : Str) : Pass :=
  let m1 := print env (changeState m state)
  if m1.stop then .exit m1
  else
    match findLine m1 m1.curState with
    | .error f => .fault f
    | .ok (m2, curLine) =>
      if m2.err = Error.NO_INSTRUCTION_FOR_LETTER then .exit m2
      else
        match writeLetter m2 curLine with
        | .error f => .fault f
        | .ok m3 =>
          let r := getNextState (move m3 curLine) curLine
          .next r.1 r.2

/-- The `while` loop of `run`, entered with the local variable `state`. The result is
the machine when the loop is left, whose `err` is what `run` returns. -/
def runLoop (env : Env) : Nat → TuringMachine → Str → Option (Except Fault TuringMachine)
  | 0, _, _ => none
  | fuel + 1, m, state =>
    if m.err ≠ Error.NO_ERROR then some (.ok m)
    else
      match pass env m state with
      | .next m1 state1 => runLoop env fuel m1 state1
      | .exit m1 => some (.ok m1)
      | .fault f => some (.error f)

/-- The statements of `run` before the loop: `.exit` when `run` returns there, `.next`
with the machine and the local variable `state` when the loop is entered. -/
def runInit (env : Env) (m : TuringMachine) : Pass :=
  let m2 := readInstructions env (readLine env m)
  if m2.err ≠ Error.NO_ERROR then .exit m2
  else if m2.initState = "smallest_key".toList then
    match mapBegin m2.commands with
    | none => .fault Fault.emptyTable
    | some state => .next m2 state
  else .next m2 m2.initState

/-- Body of `run`: the machine when `run` returns, whose `err` is the value returned. -/
def run (env : Env) (fuel : Nat) (m : TuringMachine) : Option (Except Fault TuringMachine) :=
  match runInit env m with
  | .next m2 state => runLoop env fuel m2 state
  | .exit m2 => some (.ok m2)
  | .fault f => some (.error f)

/-- The machine and the local variable `state` at the `n`-th evaluation of the condition
of the loop after the one the loop is at, when the loop gets that far. -/
def loopConfig (env : Env) : Nat → TuringMachine → Str → Option (TuringMachine × Str)
  | 0, m, state => some (m, state)
  | n + 1, m, state =>
    if m.err ≠ Error.NO_ERROR then none
    else
      match pass env m state with
      | .next m1 state1 => loopConfig env n m1 state1
      | .exit _ => none
      | .fault _ => none

/-- The machine built by the constructor with five arguments. -/
def new (inp inst oup init_state : Str) (step : Bool) : TuringMachine :=
  { stop := false, stepByStep := step, pointer := 0, err := Error.NO_ERROR, line := [],
    curState := [], initState := init_state, inputFile := inp, instructFile := inst,
    outputFile := oup, commands := [] }

/-! ## Vocabulary of the statements -/

/-- The head is on a cell of the tape: `0 ≤ pointer < line.size()`. -/
def headInRange (m : TuringMachine) : Prop :=
  0 ≤ m.pointer ∧ m.pointer < (m.line.length : Int)

/-- One call of a sequence of head moves. -/
inductive HeadMove where
  | left
  | right
  deriving DecidableEq, Repr

/-- The call of `moveLeft` or of `moveRight` that a `HeadMove` names. -/
def applyMove (m : TuringMachine) : HeadMove → TuringMachine
  | .left => moveLeft m
  | .right => moveRight m

/-- A call crosses a boundary: `moveLeft` with the head on the first cell, `moveRight`
with the head on the last one. -/
def crossesBoundary (m : TuringMachine) : HeadMove → Bool
  | .left => decide (m.pointer = 0)
  | .right => decide (m.pointer = (m.line.length : Int) - 1)

/-- The symbol under the head is `curEl`: the read `line[pointer]` of `findLine`. -/
def underHead (m : TuringMachine) (curEl : Char) : Prop :=
  readAt m.line m.pointer = some curEl

/-! ## Sample machines -/

/-- A machine on the given tape, head and table, its other members as the constructor
leaves them. -/
def sample (line : Str) (pointer : Int) (commands : Commands) : TuringMachine :=
  { new [] [] "console".toList "smallest_key".toList false with
    line := line, pointer := pointer, commands := commands }

/-- The instructions of the example of the wildcard fallback. -/
def fallbackCmds : List Str := [" a x r S2".toList, " * y l S3".toList]

/-- Two wildcard instructions. -/
def twoWildcards : List Str := [" * x r S2".toList, " * y l S3".toList]

/-- Files of a run: `input.txt` holds `tape`, `instructions.txt` holds `instructions`,
and no other file opens. -/
def files (tape instructions : Str) : Env where
  openRead := fun f =>
    if f = "input.txt".toList then some tape
    else if f = "instructions.txt".toList then some instructions
    else none
  openAppend := fun _ => false

/-- The machine `main` builds for `input.txt instructions.txt console init_state`. -/
def machine (init_state : Str) : TuringMachine :=
  new "input.txt".toList "instructions.txt".toList "console".toList init_state false

/-- Instruction file of the scenario that flips the first two cells of `101`. -/
def flipFile : Str :=
  "a 1 0 r a\na 0 1 r b\na * * * halt\nb * * * halt\n".toList

/-- Table of the scenario that flips the first two cells of `101`. -/
def flipTable : Commands :=
  [("a".toList, [" 1 0 r a".toList, " 0 1 r b".toList, " * * * halt".toList]),
   ("b".toList, [" * * * halt".toList])]

/-- Instruction file whose only instruction names the next state `z`, which has no
instruction of its own. -/
def missingStateFile : Str := "a 1 1 r z\n".toList

/-- The machine the loop is entered with on the tape `1` and `missingStateFile`. -/
def missingStateLoaded : TuringMachine :=
  { machine "a".toList with
    line := "1".toList, commands := [("a".toList, [" 1 1 r z".toList])] }

/-- Instruction file whose only instruction has the direction `x` and names the next
state `z`, which has no instruction of its own. -/
def badDirectionFile : Str := "a 1 0 x z\n".toList

/-- Instruction file in which state `S1` has one instruction, for the symbol `a`, and no
wildcard instruction. -/
def noMatchFile : Str := "S1 a x r S1\n".toList

/-! ## Vocabulary of the statements about the run loop -/

/-- The direction letter `get(cmd, 2)[0]` is one of the three that `getDirection`
recognises. -/
def recognisedDirection (cmd : Str) : Prop :=
  (get cmd 2).headD NUL = 'r' ∨ (get cmd 2).headD NUL = 'l' ∨ (get cmd 2).headD NUL = '*'

/-- The output of `print` opens: it is the console, or a file that opens for appending. -/
def outputOpens (env : Env) (m : TuringMachine) : Prop :=
  m.outputFile = "console".toList ∨ env.openAppend m.outputFile = true

/-- The machine `main` builds for `input.txt instructions.txt oup init_state`. -/
def machineTo (oup init_state : Str) : TuringMachine :=
  new "input.txt".toList "instructions.txt".toList oup init_state false

/-- Instruction file whose only instruction names the next state `halting_area`. -/
def haltingAreaFile : Str := "a 1 0 r halting_area\n".toList

/-- The machine the loop is entered with on the tape `1` and `haltingAreaFile`. -/
def haltingAreaLoaded : TuringMachine :=
  { machine "a".toList with
    line := "1".toList, commands := [("a".toList, [" 1 0 r halting_area".toList])] }

/-- Instruction file whose only state is named `halt`. -/
def haltStateFile : Str := "halt 1 0 r halt\n".toList

/-- The machine the loop is entered with on the tape `1` and `badDirectionFile`. -/
def badDirectionLoaded : TuringMachine :=
  { machine "a".toList with
    line := "1".toList, commands := [("a".toList, [" 1 0 x z".toList])] }

/-- Instruction file whose only instruction writes `0` over `1` and moves right. -/
def stepFile : Str := "a 1 0 r a\n".toList

/-- The machine the loop is entered with on the tape `1` and `stepFile` when the reports
go to the file `output.txt`. -/
def stepLoadedTo : TuringMachine :=
  { machineTo "output.txt".toList "a".toList with
    line := "1".toList, commands := [("a".toList, [" 1 0 r a".toList])] }

/-- Instruction file whose only instruction moves right over any symbol and writes
nothing. -/
def sweepFile : Str := "a * * r a\n".toList

/-- The machine the loop is entered with on the empty tape and `sweepFile`. -/
def sweepLoaded : TuringMachine :=
  { machine "a".toList with commands := [("a".toList, [" * * r a".toList])] }

/-- Instruction file whose only instruction writes `1` over any symbol. -/
def stampFile : Str := "a * 1 r a\n".toList

/-! ## Vocabulary of the statements about the table -/

/-- The keys of the table are in strictly increasing order, as the keys of a `std::map`
are. -/
def keysSorted (c : Commands) : Prop :=
  (c.map Prod.fst).Pairwise (fun a b => strLt a b = true)

/-- The machine after the two reads `run` starts with. -/
def loaded (env : Env) (m : TuringMachine) : TuringMachine :=
  readInstructions env (readLine env m)

/-- One line of the instruction source, read by the words of the specification: nothing
for a line whose first character is `;` and for a line without a word, otherwise the
record of the line, made of its first word (the state) and of the text that follows that
word (the instruction). -/
def recordOf (tmp : Str) : Option (Str × Str) :=
  if tmp.headD NUL = ';' then none
  else if tmp.dropWhile isSpace = [] then none
  else
    some ((tmp.dropWhile isSpace).takeWhile (fun c => !isSpace c),
      ((tmp.dropWhile isSpace).dropWhile (fun c => !isSpace c)).takeWhile (fun c => c ≠ '\n'))

/-- The instructions that the records of the lines give to state `s`, in the order of
the lines. -/
def instructionsOf (lines : List Str) (s : Str) : List Str :=
  (lines.filterMap recordOf).filterMap (fun r => if r.1 = s then some r.2 else none)

/-- Something follows the first word of the line. -/
def wordFollowed (tmp : Str) : Prop :=
  (tmp.dropWhile isSpace).dropWhile (fun c => !isSpace c) ≠ []

/-- Instruction file whose second line is the name of a state and nothing else. -/
def staleFile : Str := "a 1 0 r a\nb\n".toList

/-- Instruction file whose keys are not met in their order. -/
def unorderedFile : Str := "b * * * halt\na 1 0 r b\n".toList

/-- A tape of `2^31` blanks with the head on its last cell, whose index is `INT_MAX`. -/
def longTape : TuringMachine := sample (List.replicate (2 ^ 31) ' ') (2 ^ 31 - 1) []

end TuringMachine

open TuringMachine

/-! ## The tape: `moveLeft`, `moveRight`, `writeLetter` -/

theorem toSizeT_of_nonneg {p : Int} (h : 0 ≤ p) : toSizeT p = p := by
  unfold toSizeT
  rw [if_neg (by omega)]

theorem sizeMinusOne_of_pos {n : Nat} (h : 0 < n) : sizeMinusOne n = (n : Int) - 1 := by
  unfold sizeMinusOne
  rw [if_neg (by omega)]

/-- On the values a `size_t` can hold, `sizeMinusOne` is subtraction modulo `2^64`. -/
theorem sizeMinusOne_eq_mod {n : Nat} (h : n < 2 ^ 64) :
    sizeMinusOne n = (((n + (2 ^ 64 - 1)) % 2 ^ 64 : Nat) : Int) := by
  unfold sizeMinusOne SIZE_MAX
  split
  · subst n; norm_num
  · have h1 : (n + (2 ^ 64 - 1)) % 2 ^ 64 = n - 1 := by omega
    rw [h1]; omega

/-- On the values an `int` can hold, `toSizeT` is reduction modulo `2^64`. -/
theorem toSizeT_eq_mod {p : Int} (h1 : -(2 ^ 31) ≤ p) (h2 : p < 2 ^ 31) :
    toSizeT p = p % 2 ^ 64 := by
  unfold toSizeT
  split <;> omega

theorem moveLeft_of_pos {m : TuringMachine} (h : 0 < m.pointer) :
    moveLeft m = { m with pointer := m.pointer - 1 } := by
  unfold moveLeft
  rw [if_pos (by omega)]

theorem moveLeft_of_zero {m : TuringMachine} (h : m.pointer = 0) :
    moveLeft m = { m with line := ' ' :: m.line } := by
  unfold moveLeft
  rw [if_neg (by omega)]

/-- In the range of `int` nothing wraps. -/
theorem wrapInt_of_range {x : Int} (h1 : -(2 ^ 31) ≤ x) (h2 : x < 2 ^ 31) :
    wrapInt x = x := by
  unfold wrapInt
  omega

/-- Below `INT_MAX`, `pointer++` is the successor. -/
theorem wrapInt_succ {p : Int} (h0 : 0 ≤ p) (hb : p < INT_MAX) : wrapInt (p + 1) = p + 1 := by
  unfold INT_MAX at hb
  exact wrapInt_of_range (by omega) (by omega)

theorem moveRight_of_lt {m : TuringMachine} (h0 : 0 ≤ m.pointer) (hb : m.pointer < INT_MAX)
    (h : m.pointer < (m.line.length : Int) - 1) :
    moveRight m = { m with pointer := m.pointer + 1 } := by
  unfold moveRight
  rw [toSizeT_of_nonneg h0, sizeMinusOne_of_pos (by omega), if_pos h, wrapInt_succ h0 hb]

theorem moveRight_of_last {m : TuringMachine} (h0 : 0 ≤ m.pointer) (hb : m.pointer < INT_MAX)
    (h : m.pointer = (m.line.length : Int) - 1) :
    moveRight m = { m with line := m.line ++ [' '], pointer := m.pointer + 1 } := by
  unfold moveRight
  rw [toSizeT_of_nonneg h0, sizeMinusOne_of_pos (by omega), if_neg (by omega),
    wrapInt_succ h0 hb]

/-- One move made with the head below `INT_MAX` keeps the head on the tape and lengthens
the tape by one cell exactly when it crosses a boundary. -/
theorem applyMove_spec (m : TuringMachine) (mv : HeadMove) (h : headInRange m)
    (hb : m.pointer < INT_MAX) :
    headInRange (applyMove m mv) ∧
      (applyMove m mv).line.length
        = m.line.length + (if crossesBoundary m mv then 1 else 0) := by
  obtain ⟨h0, h1⟩ := h
  cases mv with
  | left =>
    by_cases hp : 0 < m.pointer
    · have hc : ¬ m.pointer = 0 := by omega
      simp only [applyMove, crossesBoundary, moveLeft_of_pos hp, headInRange, hc,
        decide_False]
      constructor
      · constructor <;> omega
      · simp
    · have hz : m.pointer = 0 := by omega
      simp only [applyMove, crossesBoundary, moveLeft_of_zero hz, headInRange, hz,
        decide_True, List.length_cons]
      constructor
      · constructor
        · omega
        · push_cast; omega
      · simp
  | right =>
    by_cases hp : m.pointer < (m.line.length : Int) - 1
    · have hc : ¬ m.pointer = (m.line.length : Int) - 1 := by omega
      simp only [applyMove, crossesBoundary, moveRight_of_lt h0 hb hp, headInRange, hc,
        decide_False]
      constructor
      · constructor <;> omega
      · simp
    · have hz : m.pointer = (m.line.length : Int) - 1 := by omega
      simp only [applyMove, crossesBoundary, moveRight_of_last h0 hb hz, headInRange, hz,
        decide_True, List.length_append, List.length_singleton]
      constructor
      · constructor
        · omega
        · push_cast; omega
      · simp

/-- C5. With the head on the tape: if `pointer > 0`, `moveLeft` decrements the head and
leaves the tape as it is; if `pointer = 0`, the new tape is one blank followed by the
old tape, so every old symbol goes from index `i` to index `i + 1`, and the head is
still `0`. -/
theorem moveLeft_spec (m : TuringMachine) (h : headInRange m) :
    (0 < m.pointer →
        (moveLeft m).pointer = m.pointer - 1 ∧ (moveLeft m).line = m.line) ∧
      (m.pointer = 0 →
        (moveLeft m).line = ' ' :: m.line ∧
          (∀ i, (moveLeft m).line[i + 1]? = m.line[i]?) ∧ (moveLeft m).pointer = 0) := by
  obtain ⟨_, _⟩ := h
  constructor
  · intro hp
    rw [moveLeft_of_pos hp]
    exact ⟨rfl, rfl⟩
  · intro hz
    rw [moveLeft_of_zero hz]
    exact ⟨rfl, fun i => by simp, hz⟩

theorem moveLeft_spec_witness :
    headInRange (sample "ab".toList 0 []) ∧
      (moveLeft (sample "ab".toList 0 [])).line = " ab".toList ∧
      (moveLeft (sample "ab".toList 0 [])).pointer = 0 :=
  have h : headInRange (sample "ab".toList 0 []) := by
    unfold headInRange; decide
  ⟨h, ((moveLeft_spec (sample "ab".toList 0 []) h).2 (by decide)).1,
    ((moveLeft_spec (sample "ab".toList 0 []) h).2 (by decide)).2.2⟩

/-- C6, amended. With the head on the tape and below `INT_MAX`: if
`pointer < line.size() - 1`, `moveRight` increments the head and leaves the tape as it
is; if `pointer = line.size() - 1`, the new tape is the old tape followed by one blank
and the new head is the old length, the index of the blank that was appended. -/
theorem moveRight_spec (m : TuringMachine) (h : headInRange m) (hb : m.pointer < INT_MAX) :
    (m.pointer < (m.line.length : Int) - 1 →
        (moveRight m).pointer = m.pointer + 1 ∧ (moveRight m).line = m.line) ∧
      (m.pointer = (m.line.length : Int) - 1 →
        (moveRight m).line = m.line ++ [' '] ∧
          (moveRight m).pointer = (m.line.length : Int) ∧
          (moveRight m).line[m.line.length]? = some ' ') := by
  obtain ⟨h0, _⟩ := h
  constructor
  · intro hp
    rw [moveRight_of_lt h0 hb hp]
    exact ⟨rfl, rfl⟩
  · intro hz
    rw [moveRight_of_last h0 hb hz]
    refine ⟨rfl, ?_, ?_⟩
    · show m.pointer + 1 = (m.line.length : Int)
      omega
    · show (m.line ++ [' '])[m.line.length]? = some ' '
      simp

theorem moveRight_spec_witness :
    headInRange (sample "ab".toList 1 []) ∧
      (sample "ab".toList 1 []).pointer < INT_MAX ∧
      (moveRight (sample "ab".toList 1 [])).line = "ab ".toList ∧
      (moveRight (sample "ab".toList 1 [])).pointer = 2 :=
  have h : headInRange (sample "ab".toList 1 []) := by
    unfold headInRange; decide
  have hb : (sample "ab".toList 1 []).pointer < INT_MAX := by
    unfold INT_MAX; decide
  ⟨h, hb, ((moveRight_spec (sample "ab".toList 1 []) h hb).2 (by decide)).1,
    ((moveRight_spec (sample "ab".toList 1 []) h hb).2 (by decide)).2.1⟩

theorem longTape_length : longTape.line.length = 2 ^ 31 := by
  show (List.replicate (2 ^ 31) ' ').length = 2 ^ 31
  rw [List.length_replicate]

theorem longTape_headInRange : headInRange longTape := by
  unfold headInRange
  rw [longTape_length]
  show (0 : Int) ≤ 2 ^ 31 - 1 ∧ (2 ^ 31 - 1 : Int) < ((2 ^ 31 : Nat) : Int)
  norm_num

/-- On the tape of `2^31` cells with the head on the last one, `moveRight` appends a
blank and `pointer++` overflows: the head wraps around to `-2^31`. -/
theorem moveRight_longTape :
    moveRight longTape = { longTape with line := longTape.line ++ [' '], pointer := -(2 ^ 31) } := by
  have hp : longTape.pointer = 2 ^ 31 - 1 := rfl
  have hw : wrapInt (2 ^ 31 - 1 + 1) = -(2 ^ 31) := by
    unfold wrapInt
    norm_num
  unfold moveRight
  rw [longTape_length, hp, toSizeT_of_nonneg (by norm_num),
    sizeMinusOne_of_pos (by norm_num), if_neg (by norm_num), hw]

/-- C6 as stated fails at the end of the range of `int`: on a tape of `2^31` cells with
the head on the last cell, index `INT_MAX`, `moveRight` appends the blank and the
new head is `-2^31`, not the old length `2^31`. -/
theorem moveRight_spec_counterexample :
    headInRange longTape ∧
      longTape.pointer = (longTape.line.length : Int) - 1 ∧
      (moveRight longTape).line = longTape.line ++ [' '] ∧
      (moveRight longTape).pointer = -(2 ^ 31) ∧
      (moveRight longTape).pointer ≠ (longTape.line.length : Int) := by
  refine ⟨longTape_headInRange, ?_, ?_, ?_, ?_⟩
  · rw [longTape_length]
    show (2 ^ 31 - 1 : Int) = ((2 ^ 31 : Nat) : Int) - 1
    norm_num
  · rw [moveRight_longTape]
  · rw [moveRight_longTape]
  · rw [moveRight_longTape, longTape_length]
    show (-(2 ^ 31) : Int) ≠ ((2 ^ 31 : Nat) : Int)
    norm_num

/-- C7. When the write symbol of the instruction is the wildcard `*`, `writeLetter`
leaves the machine as it is, whatever the tape and the head: the whole tape, the symbol
under the head and the head index are unchanged. -/
theorem writeLetter_wildcard (m : TuringMachine) (cmd : Str)
    (h : getWriteLetter cmd = '*') : writeLetter m cmd = .ok m := by
  unfold writeLetter
  simp [h]

theorem writeLetter_wildcard_witness :
    getWriteLetter " 1 * r a".toList = '*' ∧
      writeLetter (sample "101".toList 0 []) " 1 * r a".toList
        = .ok (sample "101".toList 0 []) :=
  ⟨by decide, writeLetter_wildcard (sample "101".toList 0 []) " 1 * r a".toList (by decide)⟩

/-- C8. With the head on the tape and a write symbol `c` other than `*`, `writeLetter`
succeeds and changes the tape only: afterwards the cell under the head holds `c`, every
other cell is as before, and the length of the tape and the head index are unchanged.
A write symbol spelled `_` is the blank, a space. -/
theorem writeLetter_spec (m : TuringMachine) (cmd : Str) (h : headInRange m)
    (hc : getWriteLetter cmd ≠ '*') :
    writeLetter m cmd
        = .ok { m with line := m.line.set m.pointer.toNat (getWriteLetter cmd) } ∧
      (m.line.set m.pointer.toNat (getWriteLetter cmd))[m.pointer.toNat]?
        = some (getWriteLetter cmd) ∧
      (∀ i, i ≠ m.pointer.toNat →
        (m.line.set m.pointer.toNat (getWriteLetter cmd))[i]? = m.line[i]?) ∧
      (m.line.set m.pointer.toNat (getWriteLetter cmd)).length = m.line.length ∧
      ((get cmd 1).head? = some '_' → getWriteLetter cmd = ' ') := by
  obtain ⟨h0, h1⟩ := h
  have hlt : m.pointer.toNat < m.line.length := by omega
  refine ⟨?_, ?_, ?_, ?_, ?_⟩
  · unfold writeLetter writeAt
    simp only [hc, ne_eq, not_false_eq_true, if_true]
    rw [if_neg (by omega), if_pos hlt]
  · simp [hlt]
  · intro i hi
    rw [List.getElem?_set_ne (Ne.symm hi)]
  · simp
  · intro hu
    unfold getWriteLetter
    cases hg : get cmd 1 with
    | nil => simp [hg] at hu
    | cons a l =>
      simp only [hg, List.head?_cons, Option.some.injEq] at hu
      simp [hu]

theorem writeLetter_spec_witness :
    headInRange (sample "ab".toList 1 []) ∧ getWriteLetter " a _ r s".toList ≠ '*' ∧
      writeLetter (sample "ab".toList 1 []) " a _ r s".toList
        = .ok (sample "a ".toList 1 []) :=
  have h : headInRange (sample "ab".toList 1 []) := by
    unfold headInRange; decide
  ⟨h, by decide,
    (writeLetter_spec (sample "ab".toList 1 []) " a _ r s".toList h (by decide)).1⟩

/-! ## Lookup: `findLine` -/

/-- The empty instruction has read symbol NUL, so a wildcard instruction is not empty. -/
theorem ne_nil_of_getReadLetter_star {s : Str} (h : getReadLetter s = '*') : s ≠ [] := by
  intro hs
  subst hs
  revert h
  decide

/-- The loop of `findLine` returns the first instruction whose read symbol is not `*`
and is the symbol under the head. -/
theorem findLineLoop_exact (curEl : Char) (cmds : List Str) (d s : Str)
    (h : cmds.find? (fun s => getReadLetter s != '*' && getReadLetter s == curEl) = some s) :
    findLineLoop curEl cmds d = .inl s := by
  induction cmds generalizing d with
  | nil => simp at h
  | cons a rest ih =>
    unfold findLineLoop
    by_cases hp : getReadLetter a ≠ '*' ∧ getReadLetter a = curEl
    · have hb : (getReadLetter a != '*' && getReadLetter a == curEl) = true := by
        simp only [Bool.and_eq_true, bne_iff_ne, beq_iff_eq]
        exact hp
      simp only [List.find?_cons, hb, Option.some.injEq] at h
      subst h
      simp only [ne_eq]
      rw [if_pos hp]
    · have hb : (getReadLetter a != '*' && getReadLetter a == curEl) = false := by
        rw [Bool.eq_false_iff]
        simp only [ne_eq, Bool.and_eq_true, bne_iff_ne, beq_iff_eq]
        exact hp
      simp only [List.find?_cons, hb] at h
      simp only [hp, if_false]
      exact ih _ h

/-- Without such an instruction the loop of `findLine` ends with the last wildcard
instruction in `default_cmd`, or with `default_cmd` as it was when there is none. -/
theorem findLineLoop_default (curEl : Char) (cmds : List Str) (d : Str)
    (h : cmds.find? (fun s => getReadLetter s != '*' && getReadLetter s == curEl) = none) :
    findLineLoop curEl cmds d
      = .inr ((cmds.reverse.find? (fun s => getReadLetter s == '*')).getD d) := by
  induction cmds generalizing d with
  | nil => simp [findLineLoop]
  | cons a rest ih =>
    unfold findLineLoop
    cases hb : (getReadLetter a != '*' && getReadLetter a == curEl) with
    | true =>
      simp only [List.find?_cons, hb] at h
      exact absurd h (by simp)
    | false =>
      simp only [List.find?_cons, hb] at h
      have hp : ¬ (getReadLetter a ≠ '*' ∧ getReadLetter a = curEl) := by
        rw [Bool.eq_false_iff] at hb
        simpa only [ne_eq, Bool.and_eq_true, bne_iff_ne, beq_iff_eq] using hb
      simp only [hp, if_false]
      rw [ih _ h, List.reverse_cons, List.find?_append]
      congr 1
      cases hr : List.find? (fun s => getReadLetter s == '*') rest.reverse with
      | some w => simp
      | none =>
        by_cases hw : getReadLetter a = '*'
        · simp [hw]
        · simp [hw]

/-- C1, amended. For a state that is a key of the table and a symbol under the head,
`findLine` returns the first instruction of that state's list whose read symbol (`_`
read as the blank) is not `*` and equals the symbol under the head, when there is one,
also when wildcard instructions precede it; when there is none and some instruction has
read symbol `*`, it returns the last instruction with read symbol `*`. For the list
`[(a,x,r,S2), (*,y,l,S3)]`, reading `a` returns `(a,x,r,S2)` and reading `b` returns
`(*,y,l,S3)`. -/
theorem findLine_spec (m : TuringMachine) (key : Str) (cmds : List Str) (curEl : Char)
    (hk : mapAt m.commands key = some cmds) (hc : underHead m curEl) :
    (∀ s, cmds.find? (fun s => getReadLetter s != '*' && getReadLetter s == curEl) = some s →
        findLine m key = .ok (m, s)) ∧
      (cmds.find? (fun s => getReadLetter s != '*' && getReadLetter s == curEl) = none →
        ∀ s, cmds.reverse.find? (fun s => getReadLetter s == '*') = some s →
          findLine m key = .ok (m, s)) ∧
      (cmds = fallbackCmds →
        (curEl = 'a' → findLine m key = .ok (m, " a x r S2".toList)) ∧
          (curEl = 'b' → findLine m key = .ok (m, " * y l S3".toList))) := by
  have exact : ∀ s,
      cmds.find? (fun s => getReadLetter s != '*' && getReadLetter s == curEl) = some s →
        findLine m key = .ok (m, s) := by
    intro s hs
    unfold findLine
    rw [hc, hk]
    simp only [findLineLoop_exact curEl cmds [] s hs]
  have dflt :
      cmds.find? (fun s => getReadLetter s != '*' && getReadLetter s == curEl) = none →
        ∀ s, cmds.reverse.find? (fun s => getReadLetter s == '*') = some s →
          findLine m key = .ok (m, s) := by
    intro hn s hs
    have hstar : getReadLetter s = '*' := by
      simpa using List.find?_some hs
    unfold findLine
    rw [hc, hk]
    simp only [findLineLoop_default curEl cmds [] hn, hs, Option.getD_some]
    rw [if_pos (ne_nil_of_getReadLetter_star hstar)]
  refine ⟨exact, dflt, ?_⟩
  intro hl
  subst hl
  constructor
  · intro ha
    subst ha
    exact exact _ (by decide)
  · intro hb
    subst hb
    exact dflt (by decide) _ (by decide)

theorem findLine_spec_witness :
    mapAt (sample "ab".toList 1 [("S1".toList, fallbackCmds)]).commands "S1".toList
        = some fallbackCmds ∧
      underHead (sample "ab".toList 1 [("S1".toList, fallbackCmds)]) 'b' ∧
      findLine (sample "ab".toList 1 [("S1".toList, fallbackCmds)]) "S1".toList
        = .ok (sample "ab".toList 1 [("S1".toList, fallbackCmds)], " * y l S3".toList) :=
  have hk : mapAt (sample "ab".toList 1 [("S1".toList, fallbackCmds)]).commands "S1".toList
      = some fallbackCmds := by decide
  have hc : underHead (sample "ab".toList 1 [("S1".toList, fallbackCmds)]) 'b' := by
    unfold underHead; decide
  ⟨hk, hc, ((findLine_spec _ _ _ _ hk hc).2.2 rfl).2 rfl⟩

/-- C1 as stated fails when the symbol under the head is `*` itself: of two
instructions with read symbol `*`, the first is the first instruction whose read symbol
equals the symbol under the head, and `findLine` returns the second. -/
theorem findLine_first_equal_counterexample :
    mapAt (sample "*".toList 0 [("S1".toList, twoWildcards)]).commands "S1".toList
        = some twoWildcards ∧
      underHead (sample "*".toList 0 [("S1".toList, twoWildcards)]) '*' ∧
      twoWildcards.find? (fun s => getReadLetter s == '*') = some " * x r S2".toList ∧
      findLine (sample "*".toList 0 [("S1".toList, twoWildcards)]) "S1".toList
        = .ok (sample "*".toList 0 [("S1".toList, twoWildcards)], " * y l S3".toList) ∧
      findLine (sample "*".toList 0 [("S1".toList, twoWildcards)]) "S1".toList
        ≠ .ok (sample "*".toList 0 [("S1".toList, twoWildcards)], " * x r S2".toList) := by
  unfold underHead
  decide

/-! ## The run loop -/

theorem runLoop_succ (env : Env) (fuel : Nat) (m : TuringMachine) (state : Str) :
    runLoop env (fuel + 1) m state
      = if m.err ≠ Error.NO_ERROR then some (.ok m)
        else
          match pass env m state with
          | .next m1 state1 => runLoop env fuel m1 state1
          | .exit m1 => some (.ok m1)
          | .fault f => some (.error f) := rfl

/-- More fuel does not change a result. -/
theorem runLoop_mono (env : Env) (n k : Nat) (m : TuringMachine) (state : Str)
    (r : Except Fault TuringMachine) (h : runLoop env n m state = some r) :
    runLoop env (n + k) m state = some r := by
  induction n generalizing m state with
  | zero => simp [runLoop] at h
  | succ n ih =>
    rw [show n + 1 + k = (n + k) + 1 by omega]
    unfold runLoop at h ⊢
    by_cases he : m.err ≠ Error.NO_ERROR
    · rw [if_pos he] at h ⊢
      exact h
    · rw [if_neg he] at h ⊢
      cases hp : pass env m state with
      | next m1 state1 =>
        rw [hp] at h
        simp only at h ⊢
        exact ih _ _ h
      | exit m1 =>
        rw [hp] at h
        exact h
      | fault f =>
        rw [hp] at h
        exact h

/-- The loop goes on from a configuration it gets to. -/
theorem runLoop_of_loopConfig (env : Env) (n k : Nat) (m0 m : TuringMachine)
    (s0 state : Str) (h : loopConfig env n m0 s0 = some (m, state)) :
    runLoop env (n + k) m0 s0 = runLoop env k m state := by
  induction n generalizing m0 s0 with
  | zero =>
    simp only [loopConfig, Option.some.injEq, Prod.mk.injEq] at h
    obtain ⟨h1, h2⟩ := h
    subst h1 h2
    simp
  | succ n ih =>
    rw [show n + 1 + k = (n + k) + 1 by omega]
    unfold loopConfig at h
    rw [runLoop_succ]
    by_cases he : m0.err ≠ Error.NO_ERROR
    · rw [if_pos he] at h
      exact absurd h (by simp)
    · rw [if_neg he] at h ⊢
      cases hp : pass env m0 s0 with
      | next m1 state1 =>
        rw [hp] at h
        simp only at h ⊢
        exact ih _ _ h
      | exit m1 =>
        rw [hp] at h
        exact absurd h (by simp)
      | fault f =>
        rw [hp] at h
        exact absurd h (by simp)

/-- C3. The run on the tape `101` from state `a` with the table
`a: (1,0,r,a), (0,1,r,b), (*,*,*,halt)`, `b: (*,*,*,halt)` returns `NO_ERROR` and leaves
the tape `011`; four evaluations of the loop condition are enough. -/
theorem run_flip (k : Nat) :
    (readInstructions (files "101".toList flipFile)
        (readLine (files "101".toList flipFile) (machine "a".toList))).commands = flipTable ∧
      run (files "101".toList flipFile) (4 + k) (machine "a".toList)
        = some (.ok { machine "a".toList with
            stop := true, pointer := 2, err := Error.NO_ERROR, line := "011".toList,
            curState := "halt".toList, commands := flipTable }) := by
  constructor
  · decide
  · have h : runInit (files "101".toList flipFile) (machine "a".toList)
        = .next { machine "a".toList with line := "101".toList, commands := flipTable }
            "a".toList := by decide
    unfold run
    rw [h]
    exact runLoop_mono _ 4 k _ _ _ (by decide)

theorem loopConfig_succ (env : Env) (n : Nat) (m : TuringMachine) (state : Str) :
    loopConfig env (n + 1) m state
      = if m.err ≠ Error.NO_ERROR then none
        else
          match pass env m state with
          | .next m1 state1 => loopConfig env n m1 state1
          | .exit _ => none
          | .fault _ => none := rfl

/-- Configurations of the loop compose. -/
theorem loopConfig_add (env : Env) (n j : Nat) (m0 m : TuringMachine)
    (s0 state : Str) (h : loopConfig env n m0 s0 = some (m, state)) :
    loopConfig env (n + j) m0 s0 = loopConfig env j m state := by
  induction n generalizing m0 s0 with
  | zero =>
    simp only [loopConfig, Option.some.injEq, Prod.mk.injEq] at h
    obtain ⟨h1, h2⟩ := h
    subst h1 h2
    simp
  | succ n ih =>
    rw [show n + 1 + j = (n + j) + 1 by omega, loopConfig_succ]
    rw [loopConfig_succ] at h
    by_cases he : m0.err ≠ Error.NO_ERROR
    · rw [if_pos he] at h
      exact absurd h (by simp)
    · rw [if_neg he] at h ⊢
      cases hp : pass env m0 s0 with
      | next m1 state1 =>
        rw [hp] at h
        simp only at h ⊢
        exact ih _ _ h
      | exit m1 =>
        rw [hp] at h
        exact absurd h (by simp)
      | fault f =>
        rw [hp] at h
        exact absurd h (by simp)

/-- What `print` can change is `err`, which becomes `OPENING_FILE` or stays. -/
theorem print_eq (env : Env) (m : TuringMachine) :
    print env m = m ∨ print env m = { m with err := Error.OPENING_FILE } := by
  unfold print
  split
  · exact Or.inl rfl
  · split
    · exact Or.inl rfl
    · exact Or.inr rfl

/-- A lookup that returns leaves the machine as it is. -/
theorem findLine_ok_fst {m m2 : TuringMachine} {key cmd : Str}
    (h : findLine m key = .ok (m2, cmd)) : m2 = m := by
  unfold findLine at h
  split at h
  · exact absurd h (by simp)
  · split at h
    · exact absurd h (by simp)
    · split at h
      · simp only [Except.ok.injEq, Prod.mk.injEq] at h
        exact h.1.symm
      · split at h
        · simp only [Except.ok.injEq, Prod.mk.injEq] at h
          exact h.1.symm
        · exact absurd h (by simp)

/-- A write that succeeds changes the tape only. -/
theorem writeLetter_ok_eq {m m3 : TuringMachine} {cmd : Str}
    (h : writeLetter m cmd = .ok m3) : m3 = { m with line := m3.line } := by
  unfold writeLetter at h
  simp only at h
  split at h
  · split at h
    · simp only [Except.ok.injEq] at h
      subst h
      rfl
    · exact absurd h (by simp)
  · simp only [Except.ok.injEq] at h
    subst h
    rfl

theorem moveLeft_frame (m : TuringMachine) :
    (moveLeft m).commands = m.commands ∧ (moveLeft m).curState = m.curState ∧
      (moveLeft m).err = m.err ∧ (moveLeft m).stop = m.stop := by
  unfold moveLeft
  split <;> exact ⟨rfl, rfl, rfl, rfl⟩

theorem moveRight_frame (m : TuringMachine) :
    (moveRight m).commands = m.commands ∧ (moveRight m).curState = m.curState ∧
      (moveRight m).err = m.err ∧ (moveRight m).stop = m.stop := by
  unfold moveRight
  split <;> exact ⟨rfl, rfl, rfl, rfl⟩

theorem getDirection_frame (m : TuringMachine) (cmd : Str) :
    (getDirection m cmd).1.commands = m.commands ∧
      (getDirection m cmd).1.curState = m.curState ∧
      (getDirection m cmd).1.stop = m.stop ∧
      (getDirection m cmd).1.line = m.line ∧
      (getDirection m cmd).1.pointer = m.pointer := by
  unfold getDirection
  simp only
  split
  · exact ⟨rfl, rfl, rfl, rfl, rfl⟩
  · split
    · exact ⟨rfl, rfl, rfl, rfl, rfl⟩
    · split <;> exact ⟨rfl, rfl, rfl, rfl, rfl⟩

/-- A move changes neither the table nor the current state nor the stop flag. -/
theorem move_frame (m : TuringMachine) (cmd : Str) :
    (move m cmd).commands = m.commands ∧ (move m cmd).curState = m.curState ∧
      (move m cmd).stop = m.stop := by
  obtain ⟨h1, h2, h3, _, _⟩ := getDirection_frame m cmd
  unfold move
  simp only
  split
  · obtain ⟨g1, g2, _, g4⟩ := moveRight_frame (getDirection m cmd).1
    exact ⟨g1.trans h1, g2.trans h2, g4.trans h3⟩
  · split
    · obtain ⟨g1, g2, _, g4⟩ := moveLeft_frame (getDirection m cmd).1
      exact ⟨g1.trans h1, g2.trans h2, g4.trans h3⟩
    · exact ⟨h1, h2, h3⟩

/-- A pass that executes an instruction whose next state is neither halting nor a key
of the table ends with `err = INCORRECT_STATE`. -/
theorem pass_incorrect_state (env : Env) (m m2 m3 : TuringMachine) (state cmd : Str)
    (hstop : m.stop = false) (herr : m.err = Error.NO_ERROR)
    (hfind : findLine (print env (changeState m state)) state = .ok (m2, cmd))
    (hwrite : writeLetter m2 cmd = .ok m3)
    (hhalt : (get cmd 3).take 4 ≠ "halt".toList)
    (hkey : mapCount m.commands (get cmd 3) = 0) :
    pass env m state
      = .next { move m3 cmd with err := Error.INCORRECT_STATE } (get cmd 3) := by
  have h2 : m2 = print env (changeState m state) := findLine_ok_fst hfind
  have h3 := writeLetter_ok_eq hwrite
  have hm1 : (print env (changeState m state)).stop = false ∧
      (print env (changeState m state)).curState = state ∧
      (print env (changeState m state)).commands = m.commands ∧
      (print env (changeState m state)).err ≠ Error.NO_INSTRUCTION_FOR_LETTER := by
    rcases print_eq env (changeState m state) with hp | hp
    · rw [hp]
      refine ⟨hstop, rfl, rfl, ?_⟩
      show m.err ≠ Error.NO_INSTRUCTION_FOR_LETTER
      rw [herr]
      decide
    · rw [hp]
      refine ⟨hstop, rfl, rfl, ?_⟩
      show Error.OPENING_FILE ≠ Error.NO_INSTRUCTION_FOR_LETTER
      decide
  obtain ⟨hs, hcur, hcmds, hne⟩ := hm1
  have hc3 : (move m3 cmd).commands = m.commands := by
    rw [(move_frame m3 cmd).1, h3]
    show m2.commands = m.commands
    rw [h2, hcmds]
  unfold TuringMachine.pass
  simp only [hs, hcur, hfind, Bool.false_eq_true, if_false]
  rw [if_neg (by rw [h2]; exact hne)]
  simp only [hwrite]
  unfold getNextState
  simp only [hhalt, if_false, hc3, hkey, if_true]

/-- C9. In every run, a pass of the loop that executes an instruction whose next-state
token neither begins with `halt` nor is a key of the table is the last one: `run`
returns right after it with `err = INCORRECT_STATE`, the current state still the state
of that pass, and the loop makes no pass (hence no lookup) for the missing state. -/
theorem run_incorrect_state (env : Env) (M m0 m m2 m3 : TuringMachine)
    (s0 state cmd : Str) (n k : Nat)
    (hinit : runInit env M = .next m0 s0)
    (hreach : loopConfig env n m0 s0 = some (m, state))
    (herr : m.err = Error.NO_ERROR) (hstop : m.stop = false)
    (hfind : findLine (print env (changeState m state)) state = .ok (m2, cmd))
    (hwrite : writeLetter m2 cmd = .ok m3)
    (hhalt : (get cmd 3).take 4 ≠ "halt".toList)
    (hkey : mapCount m.commands (get cmd 3) = 0) :
    run env (n + (2 + k)) M
        = some (.ok { move m3 cmd with err := Error.INCORRECT_STATE }) ∧
      (move m3 cmd).curState = state ∧
      loopConfig env (n + 2) m0 s0 = none := by
  have hp := pass_incorrect_state env m m2 m3 state cmd hstop herr hfind hwrite hhalt hkey
  have he : ¬ m.err ≠ Error.NO_ERROR := by simp [herr]
  refine ⟨?_, ?_, ?_⟩
  · unfold run
    rw [hinit]
    simp only
    rw [runLoop_of_loopConfig env n (2 + k) m0 m s0 state hreach,
      show 2 + k = (k + 1) + 1 by omega, runLoop_succ, if_neg he, hp]
    simp only
    rw [runLoop_succ, if_pos (by simp)]
  · rw [(move_frame m3 cmd).2.1, writeLetter_ok_eq hwrite]
    show m2.curState = state
    rw [findLine_ok_fst hfind]
    rcases print_eq env (changeState m state) with hq | hq
    · rw [hq]; rfl
    · rw [hq]; rfl
  · rw [loopConfig_add env n 2 m0 m s0 state hreach, loopConfig_succ, if_neg he, hp]
    simp only
    rw [loopConfig_succ, if_pos (by simp)]

theorem run_incorrect_state_witness :
    runInit (files "1".toList missingStateFile) (machine "a".toList)
        = .next missingStateLoaded "a".toList ∧
      loopConfig (files "1".toList missingStateFile) 0 missingStateLoaded "a".toList
        = some (missingStateLoaded, "a".toList) ∧
      findLine (print (files "1".toList missingStateFile)
          (changeState missingStateLoaded "a".toList)) "a".toList
        = .ok (changeState missingStateLoaded "a".toList, " 1 1 r z".toList) ∧
      writeLetter (changeState missingStateLoaded "a".toList) " 1 1 r z".toList
        = .ok (changeState missingStateLoaded "a".toList) ∧
      (get " 1 1 r z".toList 3).take 4 ≠ "halt".toList ∧
      mapCount missingStateLoaded.commands (get " 1 1 r z".toList 3) = 0 ∧
      run (files "1".toList missingStateFile) 2 (machine "a".toList)
        = some (.ok { missingStateLoaded with
            line := "1 ".toList, pointer := 1, curState := "a".toList,
            err := Error.INCORRECT_STATE }) :=
  have hinit : runInit (files "1".toList missingStateFile) (machine "a".toList)
      = .next missingStateLoaded "a".toList := by decide
  have hreach : loopConfig (files "1".toList missingStateFile) 0 missingStateLoaded
      "a".toList = some (missingStateLoaded, "a".toList) := rfl
  have hfind : findLine (print (files "1".toList missingStateFile)
      (changeState missingStateLoaded "a".toList)) "a".toList
      = .ok (changeState missingStateLoaded "a".toList, " 1 1 r z".toList) := by decide
  have hwrite : writeLetter (changeState missingStateLoaded "a".toList) " 1 1 r z".toList
      = .ok (changeState missingStateLoaded "a".toList) := by decide
  have hhalt : (get " 1 1 r z".toList 3).take 4 ≠ "halt".toList := by decide
  have hkey : mapCount missingStateLoaded.commands (get " 1 1 r z".toList 3) = 0 := by
    decide
  ⟨hinit, hreach, hfind, hwrite, hhalt, hkey,
    (run_incorrect_state (files "1".toList missingStateFile) (machine "a".toList)
      missingStateLoaded missingStateLoaded (changeState missingStateLoaded "a".toList)
      (changeState missingStateLoaded "a".toList) "a".toList "a".toList " 1 1 r z".toList
      0 0 hinit hreach rfl rfl hfind hwrite hhalt hkey).1⟩

/-- A lookup with the head on the tape, in a state of the table none of whose
instructions has the symbol under the head or `*` as its read symbol, reaches
`return 0;`. -/
theorem findLine_no_match (m : TuringMachine) (key : Str) (cmds : List Str) (curEl : Char)
    (hk : mapAt m.commands key = some cmds) (hc : underHead m curEl)
    (hn : ∀ s ∈ cmds, getReadLetter s ≠ curEl ∧ getReadLetter s ≠ '*') :
    findLine m key = .error Fault.nullString := by
  have h1 : cmds.find? (fun s => getReadLetter s != '*' && getReadLetter s == curEl)
      = none := by
    rw [List.find?_eq_none]
    intro s hs
    simp [(hn s hs).1]
  have h2 : cmds.reverse.find? (fun s => getReadLetter s == '*') = none := by
    rw [List.find?_eq_none]
    intro s hs
    simp [(hn s (List.mem_reverse.mp hs)).2]
  unfold findLine
  rw [hc, hk]
  simp only [findLineLoop_default curEl cmds [] h1, h2, Option.getD_none]
  simp

/-- C2, on the code. With the tape `b` and a table in which state `S1` has the single
instruction `(a,x,r,S1)`, the first lookup finds neither an exact nor a wildcard
instruction; `findLine` then executes `return 0;`, which builds a `std::string` from a
null pointer, so the program stops there and `run` does not return
`NO_INSTRUCTION_FOR_LETTER`. -/
theorem run_no_instruction_fault (k : Nat) :
    run (files "b".toList noMatchFile) (1 + k) (machine "smallest_key".toList)
      = some (.error Fault.nullString) := by
  have h : runInit (files "b".toList noMatchFile) (machine "smallest_key".toList)
      = .next { machine "smallest_key".toList with
          line := "b".toList, commands := [("S1".toList, [" a x r S1".toList])] }
        "S1".toList := by decide
  unfold run
  rw [h]
  exact runLoop_mono _ 1 k _ _ _ (by decide)

/-- C10, on the code. With the tape `1` and the single instruction `(1,0,x,z)` of state
`a`, whose direction `x` is not recognised and whose next state `z` is not a key of the
table, `getDirection` sets `err = INCORRECT_DIRECTION`, then `getNextState` is still
called and overwrites it: `run` returns `INCORRECT_STATE`. The write of `0` stays and
the head does not move. -/
theorem run_bad_direction_missing_state (k : Nat) :
    (getDirection (machine "a".toList) " 1 0 x z".toList).1.err
        = Error.INCORRECT_DIRECTION ∧
      run (files "1".toList badDirectionFile) (2 + k) (machine "a".toList)
        = some (.ok { machine "a".toList with
            line := "0".toList, pointer := 0, curState := "a".toList,
            commands := [("a".toList, [" 1 0 x z".toList])],
            err := Error.INCORRECT_STATE }) := by
  constructor
  · decide
  · have h : runInit (files "1".toList badDirectionFile) (machine "a".toList)
        = .next { machine "a".toList with
            line := "1".toList, commands := [("a".toList, [" 1 0 x z".toList])] }
          "a".toList := by decide
    unfold run
    rw [h]
    exact runLoop_mono _ 2 k _ _ _ (by decide)

/-! ## One pass of the loop, statement by statement -/

theorem print_of_outputOpens {env : Env} {m : TuringMachine} (h : outputOpens env m) :
    print env m = m := by
  unfold print
  rcases h with h | h
  · rw [if_pos h]
  · rw [if_pos h]
    split <;> rfl

theorem getDirection_recognised (m : TuringMachine) (cmd : Str)
    (h : recognisedDirection cmd) : (getDirection m cmd).1 = m := by
  unfold getDirection
  simp only
  split
  · rfl
  · split
    · rfl
    · split
      · rfl
      · rename_i h1 h2 h3
        rcases h with h | h | h
        · exact absurd h h1
        · exact absurd h h2
        · exact absurd h h3

theorem getDirection_unrecognised (m : TuringMachine) (cmd : Str)
    (h : ¬ recognisedDirection cmd) :
    getDirection m cmd = ({ m with err := Error.INCORRECT_DIRECTION }, Direction.STAY) := by
  unfold recognisedDirection at h
  simp only [not_or] at h
  unfold getDirection
  simp only [h.1, h.2.1, h.2.2, if_false]

/-- With a direction letter that is not recognised, `move` sets `err` and does nothing
else. -/
theorem move_unrecognised (m : TuringMachine) (cmd : Str) (h : ¬ recognisedDirection cmd) :
    move m cmd = { m with err := Error.INCORRECT_DIRECTION } := by
  unfold move
  simp only [getDirection_unrecognised m cmd h]
  rw [if_neg (by decide), if_neg (by decide)]

/-- With a recognised direction letter, `move` changes the tape and the head at most. -/
theorem move_recognised (m : TuringMachine) (cmd : Str) (h : recognisedDirection cmd) :
    move m cmd = { m with line := (move m cmd).line, pointer := (move m cmd).pointer } := by
  unfold move
  simp only [getDirection_recognised m cmd h]
  split
  · unfold moveRight
    split <;> rfl
  · split
    · unfold moveLeft
      split <;> rfl
    · rfl

theorem getNextState_snd (m : TuringMachine) (cmd : Str) :
    (getNextState m cmd).2 = get cmd 3 := by
  unfold getNextState
  simp only
  split
  · rfl
  · split <;> rfl

theorem getNextState_halt (m : TuringMachine) (cmd : Str)
    (h : (get cmd 3).take 4 = "halt".toList) :
    getNextState m cmd = ({ m with stop := true }, get cmd 3) := by
  unfold getNextState
  simp only [h, if_true]

theorem getNextState_missing (m : TuringMachine) (cmd : Str)
    (h : (get cmd 3).take 4 ≠ "halt".toList) (hk : mapCount m.commands (get cmd 3) = 0) :
    getNextState m cmd = ({ m with err := Error.INCORRECT_STATE }, get cmd 3) := by
  unfold getNextState
  simp only [h, if_false, hk, if_true]

theorem getNextState_key (m : TuringMachine) (cmd : Str)
    (h : (get cmd 3).take 4 ≠ "halt".toList) (hk : mapCount m.commands (get cmd 3) ≠ 0) :
    getNextState m cmd = (m, get cmd 3) := by
  unfold getNextState
  simp only [h, if_false, hk]

/-- The tape and the head are out of the reach of `getNextState`. -/
theorem getNextState_frame (m : TuringMachine) (cmd : Str) :
    (getNextState m cmd).1.line = m.line ∧ (getNextState m cmd).1.pointer = m.pointer ∧
      (getNextState m cmd).1.curState = m.curState ∧
      (getNextState m cmd).1.commands = m.commands ∧
      (getNextState m cmd).1.outputFile = m.outputFile := by
  unfold getNextState
  simp only
  split
  · exact ⟨rfl, rfl, rfl, rfl, rfl⟩
  · split <;> exact ⟨rfl, rfl, rfl, rfl, rfl⟩

/-- A pass that finds an instruction and writes its symbol runs to the end of the body. -/
theorem pass_exec (env : Env) (m m2 m3 : TuringMachine) (state cmd : Str)
    (hstop : m.stop = false) (herr : m.err = Error.NO_ERROR)
    (hfind : findLine (print env (changeState m state)) state = .ok (m2, cmd))
    (hwrite : writeLetter m2 cmd = .ok m3) :
    pass env m state
      = .next (getNextState (move m3 cmd) cmd).1 (get cmd 3) := by
  have h2 : m2 = print env (changeState m state) := findLine_ok_fst hfind
  have hm1 : (print env (changeState m state)).stop = false ∧
      (print env (changeState m state)).curState = state ∧
      (print env (changeState m state)).err ≠ Error.NO_INSTRUCTION_FOR_LETTER := by
    rcases print_eq env (changeState m state) with hp | hp
    · rw [hp]
      refine ⟨hstop, rfl, ?_⟩
      show m.err ≠ Error.NO_INSTRUCTION_FOR_LETTER
      rw [herr]
      decide
    · rw [hp]
      refine ⟨hstop, rfl, ?_⟩
      show Error.OPENING_FILE ≠ Error.NO_INSTRUCTION_FOR_LETTER
      decide
  obtain ⟨hs, hcur, hne⟩ := hm1
  unfold TuringMachine.pass
  simp only [hs, hcur, hfind, Bool.false_eq_true, if_false]
  rw [if_neg (by rw [h2]; exact hne)]
  simp only [hwrite, getNextState_snd]

/-- A pass entered with the stop flag set leaves the loop after its report. -/
theorem pass_stop (env : Env) (m : TuringMachine) (state : Str) (hstop : m.stop = true) :
    pass env m state = .exit (print env (changeState m state)) := by
  have hs : (print env (changeState m state)).stop = true := by
    rcases print_eq env (changeState m state) with hp | hp
    · rw [hp]; exact hstop
    · rw [hp]; exact hstop
  unfold TuringMachine.pass
  simp only [hs, if_true]

/-- What a pass that runs to the end of its body has done. -/
theorem pass_next_inv (env : Env) (m m5 : TuringMachine) (state s5 : Str)
    (h : pass env m state = .next m5 s5) :
    m.stop = false ∧
      ∃ cmd m3,
        findLine (print env (changeState m state)) state
            = .ok (print env (changeState m state), cmd) ∧
          writeLetter (print env (changeState m state)) cmd = .ok m3 ∧
          m5 = (getNextState (move m3 cmd) cmd).1 ∧ s5 = get cmd 3 := by
  have hcur : (print env (changeState m state)).curState = state := by
    rcases print_eq env (changeState m state) with hp | hp
    · rw [hp]; rfl
    · rw [hp]; rfl
  have hstopeq : (print env (changeState m state)).stop = m.stop := by
    rcases print_eq env (changeState m state) with hp | hp
    · rw [hp]; rfl
    · rw [hp]; rfl
  unfold TuringMachine.pass at h
  simp only [hcur] at h
  split at h
  · exact absurd h (by simp)
  · rename_i hns
    rw [hstopeq] at hns
    refine ⟨by simpa using hns, ?_⟩
    split at h
    · exact absurd h (by simp)
    · rename_i m2 cmd hf
      have h2 : m2 = print env (changeState m state) := findLine_ok_fst hf
      subst h2
      split at h
      · exact absurd h (by simp)
      · split at h
        · exact absurd h (by simp)
        · rename_i m3 hw
          simp only [Pass.next.injEq] at h
          exact ⟨cmd, m3, hf, hw, h.1.symm, by rw [← h.2, getNextState_snd]⟩

/-! ## Halting -/

/-- What holds of a halting next state when the report of the pass opens its output.
In every run, after a pass of the loop that executes an instruction with a recognised
direction whose next-state token has `halt` as its first four characters (key of the
table or not), and whose report opened its output, the run ends: the pass made for the
halting state leaves the loop at `if (stop) break;`, before any lookup, and `run`
returns `NO_ERROR` with the machine as the instruction left it. -/
theorem run_halt_token (env : Env) (M m0 m m2 m3 : TuringMachine)
    (s0 state cmd : Str) (n k : Nat)
    (hinit : runInit env M = .next m0 s0)
    (hreach : loopConfig env n m0 s0 = some (m, state))
    (herr : m.err = Error.NO_ERROR) (hstop : m.stop = false)
    (hout : outputOpens env m)
    (hfind : findLine (print env (changeState m state)) state = .ok (m2, cmd))
    (hwrite : writeLetter m2 cmd = .ok m3)
    (hdir : recognisedDirection cmd)
    (hhalt : (get cmd 3).take 4 = "halt".toList) :
    run env (n + (2 + k)) M
        = some (.ok { move m3 cmd with stop := true, curState := get cmd 3 }) ∧
      (move m3 cmd).err = Error.NO_ERROR ∧
      pass env { move m3 cmd with stop := true } (get cmd 3)
        = .exit { move m3 cmd with stop := true, curState := get cmd 3 } ∧
      loopConfig env (n + 2) m0 s0 = none := by
  have hp1 : print env (changeState m state) = changeState m state :=
    print_of_outputOpens hout
  have h2 : m2 = changeState m state := by
    rw [← hp1]
    exact findLine_ok_fst hfind
  have h3 := writeLetter_ok_eq hwrite
  have hmv := move_recognised m3 cmd hdir
  have he5 : (move m3 cmd).err = Error.NO_ERROR := by
    rw [hmv, h3, h2]
    exact herr
  have ho5 : outputOpens env
      (changeState { move m3 cmd with stop := true } (get cmd 3)) := by
    have : (move m3 cmd).outputFile = m.outputFile := by
      rw [hmv, h3, h2]
      rfl
    unfold outputOpens
    show (move m3 cmd).outputFile = "console".toList ∨
      env.openAppend (move m3 cmd).outputFile = true
    rw [this]
    exact hout
  have hpass1 : pass env m state = .next { move m3 cmd with stop := true } (get cmd 3) := by
    rw [pass_exec env m m2 m3 state cmd hstop herr hfind hwrite, getNextState_halt _ _ hhalt]
  have hpass2 : pass env { move m3 cmd with stop := true } (get cmd 3)
      = .exit { move m3 cmd with stop := true, curState := get cmd 3 } := by
    rw [pass_stop env _ _ rfl, print_of_outputOpens ho5]
    rfl
  have he : ¬ m.err ≠ Error.NO_ERROR := by simp [herr]
  have he5n : ¬ ({ move m3 cmd with stop := true } : TuringMachine).err ≠ Error.NO_ERROR := by
    simp [he5]
  refine ⟨?_, he5, hpass2, ?_⟩
  · unfold run
    rw [hinit]
    simp only
    rw [runLoop_of_loopConfig env n (2 + k) m0 m s0 state hreach,
      show 2 + k = (k + 1) + 1 by omega, runLoop_succ, if_neg he, hpass1]
    simp only
    rw [runLoop_succ, if_neg he5n, hpass2]
  · rw [loopConfig_add env n 2 m0 m s0 state hreach, loopConfig_succ, if_neg he, hpass1]
    simp only
    rw [loopConfig_succ, if_neg he5n, hpass2]

theorem run_halt_token_witness :
    runInit (files "1".toList haltingAreaFile) (machine "a".toList)
        = .next haltingAreaLoaded "a".toList ∧
      outputOpens (files "1".toList haltingAreaFile) haltingAreaLoaded ∧
      recognisedDirection " 1 0 r halting_area".toList ∧
      (get " 1 0 r halting_area".toList 3).take 4 = "halt".toList ∧
      mapCount haltingAreaLoaded.commands (get " 1 0 r halting_area".toList 3) = 0 ∧
      run (files "1".toList haltingAreaFile) 2 (machine "a".toList)
        = some (.ok { haltingAreaLoaded with
            line := "0 ".toList, pointer := 1, stop := true,
            curState := "halting_area".toList, err := Error.NO_ERROR }) :=
  have hinit : runInit (files "1".toList haltingAreaFile) (machine "a".toList)
      = .next haltingAreaLoaded "a".toList := by decide
  have hout : outputOpens (files "1".toList haltingAreaFile) haltingAreaLoaded := by
    unfold outputOpens; decide
  have hdir : recognisedDirection " 1 0 r halting_area".toList := by
    unfold recognisedDirection; decide
  have hhalt : (get " 1 0 r halting_area".toList 3).take 4 = "halt".toList := by decide
  ⟨hinit, hout, hdir, hhalt, by decide,
    (run_halt_token (files "1".toList haltingAreaFile) (machine "a".toList)
      haltingAreaLoaded haltingAreaLoaded (changeState haltingAreaLoaded "a".toList)
      { changeState haltingAreaLoaded "a".toList with line := "0".toList }
      "a".toList "a".toList " 1 0 r halting_area".toList
      0 0 hinit rfl rfl rfl hout (by decide) (by decide) hdir hhalt).1⟩

/-- C11, on the code. With the reports going to `output.txt`, which does not open,
`print` records `OPENING_FILE` at the start of the first pass and the pass goes on
all the same: the instruction `(1,0,r,halting_area)`, whose direction is recognised and
whose next state begins with `halt`, is executed, and `run` returns `OPENING_FILE`, not
`NO_ERROR`. -/
theorem run_halt_token_closed_output (k : Nat) :
    recognisedDirection " 1 0 r halting_area".toList ∧
      (get " 1 0 r halting_area".toList 3).take 4 = "halt".toList ∧
      print (files "1".toList haltingAreaFile)
          (changeState
            { machineTo "output.txt".toList "a".toList with
              line := "1".toList,
              commands := [("a".toList, [" 1 0 r halting_area".toList])] }
            "a".toList)
        = { machineTo "output.txt".toList "a".toList with
            line := "1".toList, curState := "a".toList,
            commands := [("a".toList, [" 1 0 r halting_area".toList])],
            err := Error.OPENING_FILE } ∧
      pass (files "1".toList haltingAreaFile)
          { machineTo "output.txt".toList "a".toList with
            line := "1".toList, commands := [("a".toList, [" 1 0 r halting_area".toList])] }
          "a".toList
        = .next { machineTo "output.txt".toList "a".toList with
            line := "0 ".toList, pointer := 1, stop := true, curState := "a".toList,
            commands := [("a".toList, [" 1 0 r halting_area".toList])],
            err := Error.OPENING_FILE } "halting_area".toList ∧
      run (files "1".toList haltingAreaFile) (2 + k)
          (machineTo "output.txt".toList "a".toList)
        = some (.ok { machineTo "output.txt".toList "a".toList with
            line := "0 ".toList, pointer := 1, stop := true, curState := "a".toList,
            commands := [("a".toList, [" 1 0 r halting_area".toList])],
            err := Error.OPENING_FILE }) := by
  refine ⟨by unfold recognisedDirection; decide, by decide, by decide, by decide, ?_⟩
  have h : runInit (files "1".toList haltingAreaFile)
      (machineTo "output.txt".toList "a".toList)
      = .next { machineTo "output.txt".toList "a".toList with
          line := "1".toList, commands := [("a".toList, [" 1 0 r halting_area".toList])] }
        "a".toList := by decide
  unfold run
  rw [h]
  exact runLoop_mono _ 2 k _ _ _ (by decide)

/-- The last pass before a configuration the loop gets to. -/
theorem loopConfig_succ_last (env : Env) (n : Nat) (m0 m5 : TuringMachine) (s0 s5 : Str)
    (h : loopConfig env (n + 1) m0 s0 = some (m5, s5)) :
    ∃ m s, loopConfig env n m0 s0 = some (m, s) ∧ m.err = Error.NO_ERROR ∧
      pass env m s = .next m5 s5 := by
  induction n generalizing m0 s0 with
  | zero =>
    rw [loopConfig_succ] at h
    by_cases he : m0.err ≠ Error.NO_ERROR
    · rw [if_pos he] at h
      exact absurd h (by simp)
    · rw [if_neg he] at h
      cases hp : pass env m0 s0 with
      | next m1 s1 =>
        rw [hp] at h
        simp only [loopConfig, Option.some.injEq, Prod.mk.injEq] at h
        refine ⟨m0, s0, rfl, by simpa using he, ?_⟩
        rw [hp, h.1, h.2]
      | exit m1 =>
        rw [hp] at h
        exact absurd h (by simp)
      | fault f =>
        rw [hp] at h
        exact absurd h (by simp)
  | succ n ih =>
    rw [loopConfig_succ] at h
    by_cases he : m0.err ≠ Error.NO_ERROR
    · rw [if_pos he] at h
      exact absurd h (by simp)
    · rw [if_neg he] at h
      cases hp : pass env m0 s0 with
      | next m1 s1 =>
        rw [hp] at h
        simp only at h
        obtain ⟨m, s, h1, h2, h3⟩ := ih m1 s1 h
        refine ⟨m, s, ?_, h2, h3⟩
        rw [loopConfig_succ, if_neg he, hp]
        exact h1
      | exit m1 =>
        rw [hp] at h
        exact absurd h (by simp)
      | fault f =>
        rw [hp] at h
        exact absurd h (by simp)

theorem move_err (m : TuringMachine) (cmd : Str) :
    (move m cmd).err = m.err ∨ (move m cmd).err = Error.INCORRECT_DIRECTION := by
  by_cases h : recognisedDirection cmd
  · left
    rw [move_recognised m cmd h]
  · right
    rw [move_unrecognised m cmd h]

theorem move_outputFile (m : TuringMachine) (cmd : Str) :
    (move m cmd).outputFile = m.outputFile := by
  by_cases h : recognisedDirection cmd
  · rw [move_recognised m cmd h]
  · rw [move_unrecognised m cmd h]

theorem getNextState_err (m : TuringMachine) (cmd : Str) :
    (getNextState m cmd).1.err = m.err ∨
      (getNextState m cmd).1.err = Error.INCORRECT_STATE := by
  unfold getNextState
  simp only
  split
  · exact Or.inl rfl
  · split
    · exact Or.inr rfl
    · exact Or.inl rfl

/-- A report whose output does not open sets `err`. -/
theorem print_err_of_not_outputOpens {env : Env} {m : TuringMachine}
    (h : ¬ outputOpens env m) : print env m = { m with err := Error.OPENING_FILE } := by
  unfold outputOpens at h
  simp only [not_or] at h
  unfold print
  rw [if_neg h.1, if_neg h.2]

/-- A pass that ends without an error has opened its output, and the machine it ends
with reports to the same output. -/
theorem pass_next_outputOpens (env : Env) (m m5 : TuringMachine) (state s5 : Str)
    (h : pass env m state = .next m5 s5) (h5 : m5.err = Error.NO_ERROR) :
    outputOpens env m5 := by
  obtain ⟨_, cmd, m3, hf, hw, hm5, _⟩ := pass_next_inv env m m5 state s5 h
  have h3 := writeLetter_ok_eq hw
  have hof : m5.outputFile = m.outputFile := by
    rw [hm5, (getNextState_frame _ _).2.2.2.2, move_outputFile, h3]
    show (print env (changeState m state)).outputFile = m.outputFile
    rcases print_eq env (changeState m state) with hp | hp
    · rw [hp]; rfl
    · rw [hp]; rfl
  by_cases ho : outputOpens env (changeState m state)
  · unfold outputOpens
    rw [hof]
    exact ho
  · exfalso
    have hp := print_err_of_not_outputOpens ho
    have e3 : m3.err = Error.OPENING_FILE := by
      rw [h3, hp]
    have e4 : (move m3 cmd).err ≠ Error.NO_ERROR := by
      rcases move_err m3 cmd with e | e
      · rw [e, e3]; decide
      · rw [e]; decide
    have e5 : m5.err ≠ Error.NO_ERROR := by
      rw [hm5]
      rcases getNextState_err (move m3 cmd) cmd with e | e
      · rw [e]; exact e4
      · rw [e]; decide
    exact e5 h5

/-- A pass that ends with a name beginning with `halt` has set the stop flag. -/
theorem pass_next_halt (env : Env) (m m5 : TuringMachine) (state s5 : Str)
    (h : pass env m state = .next m5 s5) (hh : s5.take 4 = "halt".toList) :
    m5.stop = true := by
  obtain ⟨_, cmd, m3, _, _, hm5, hs5⟩ := pass_next_inv env m m5 state s5 h
  rw [hs5] at hh
  rw [hm5, getNextState_halt _ _ hh]

/-- C12, amended. Whenever the state at the start of a step is a name beginning with
`halt` that the previous step adopted from the next-state token of its instruction, the
engine halts at that step with outcome `NO_ERROR` before any lookup, write or move: the
stop flag is set, the pass leaves the loop after its report, and `run` returns the
machine with the tape and the head exactly as they were. -/
theorem run_halting_state (env : Env) (M m0 m5 : TuringMachine) (s0 s5 : Str) (n k : Nat)
    (hinit : runInit env M = .next m0 s0)
    (hreach : loopConfig env (n + 1) m0 s0 = some (m5, s5))
    (herr : m5.err = Error.NO_ERROR)
    (hhalt : s5.take 4 = "halt".toList) :
    m5.stop = true ∧
      pass env m5 s5 = .exit { m5 with curState := s5 } ∧
      run env (n + 1 + (1 + k)) M = some (.ok { m5 with curState := s5 }) ∧
      ({ m5 with curState := s5 } : TuringMachine).err = Error.NO_ERROR := by
  obtain ⟨m, s, _, _, hp⟩ := loopConfig_succ_last env n m0 m5 s0 s5 hreach
  have hstop := pass_next_halt env m m5 s s5 hp hhalt
  have hout : outputOpens env (changeState m5 s5) := pass_next_outputOpens env m m5 s s5 hp herr
  have hpass : pass env m5 s5 = .exit { m5 with curState := s5 } := by
    rw [pass_stop env m5 s5 hstop, print_of_outputOpens hout]
    rfl
  have he : ¬ m5.err ≠ Error.NO_ERROR := by simp [herr]
  refine ⟨hstop, hpass, ?_, herr⟩
  unfold run
  rw [hinit]
  simp only
  rw [runLoop_of_loopConfig env (n + 1) (1 + k) m0 m5 s0 s5 hreach,
    show 1 + k = k + 1 by omega, runLoop_succ, if_neg he, hpass]

theorem run_halting_state_witness :
    runInit (files "1".toList haltingAreaFile) (machine "a".toList)
        = .next haltingAreaLoaded "a".toList ∧
      loopConfig (files "1".toList haltingAreaFile) 1 haltingAreaLoaded "a".toList
        = some ({ haltingAreaLoaded with
            line := "0 ".toList, pointer := 1, stop := true, curState := "a".toList },
          "halting_area".toList) ∧
      run (files "1".toList haltingAreaFile) 2 (machine "a".toList)
        = some (.ok { haltingAreaLoaded with
            line := "0 ".toList, pointer := 1, stop := true,
            curState := "halting_area".toList }) :=
  have hinit : runInit (files "1".toList haltingAreaFile) (machine "a".toList)
      = .next haltingAreaLoaded "a".toList := by decide
  have hreach : loopConfig (files "1".toList haltingAreaFile) (0 + 1) haltingAreaLoaded
      "a".toList
      = some ({ haltingAreaLoaded with
          line := "0 ".toList, pointer := 1, stop := true, curState := "a".toList },
        "halting_area".toList) := by decide
  ⟨hinit, hreach,
    (run_halting_state (files "1".toList haltingAreaFile) (machine "a".toList)
      haltingAreaLoaded _ "a".toList "halting_area".toList 0 0 hinit hreach rfl
      (by decide)).2.2.1⟩

/-- C12 as stated fails for the configured initial state: `stop` is false when the loop
is entered, whatever the name of the state. With the initial state `halt`, a key of the
table, the first pass looks up, writes and moves (the tape `1` becomes `0 ` with the
head on cell 1); with the initial state `halt` and a table without that key, the lookup
`commands.at` throws. -/
theorem run_halting_state_counterexample :
    ("halt".toList : Str).take 4 = "halt".toList ∧
      runInit (files "1".toList haltStateFile) (machine "halt".toList)
        = .next { machine "halt".toList with
            line := "1".toList, commands := [("halt".toList, [" 1 0 r halt".toList])] }
          "halt".toList ∧
      run (files "1".toList haltStateFile) 2 (machine "halt".toList)
        = some (.ok { machine "halt".toList with
            line := "0 ".toList, pointer := 1, stop := true, curState := "halt".toList,
            commands := [("halt".toList, [" 1 0 r halt".toList])] }) ∧
      run (files "1".toList missingStateFile) 1 (machine "halt".toList)
        = some (.error Fault.missingKey) := by
  decide

/-! ## Errors recorded by a pass -/

theorem mapCount_of_mapAt {c : Commands} {k : Str} {v : List Str}
    (h : mapAt c k = some v) : mapCount c k = 1 := by
  induction c with
  | nil => simp [mapAt] at h
  | cons a rest ih =>
    obtain ⟨k1, v1⟩ := a
    unfold mapAt at h
    unfold mapCount
    by_cases hk : k1 = k
    · rw [if_pos hk]
    · rw [if_neg hk] at h ⊢
      exact ih h

theorem mapAt_of_mapCount {c : Commands} {k : Str} (h : mapCount c k ≠ 0) :
    ∃ v, mapAt c k = some v := by
  induction c with
  | nil => simp [mapCount] at h
  | cons a rest ih =>
    obtain ⟨k1, v1⟩ := a
    unfold mapCount at h
    unfold mapAt
    by_cases hk : k1 = k
    · rw [if_pos hk]
      exact ⟨v1, rfl⟩
    · rw [if_neg hk] at h ⊢
      exact ih h

/-- A lookup that returns was made for a key of the table. -/
theorem findLine_ok_key {m : TuringMachine} {key : Str} {r : TuringMachine × Str}
    (h : findLine m key = .ok r) : mapCount m.commands key = 1 := by
  unfold findLine at h
  split at h
  · exact absurd h (by simp)
  · split at h
    · exact absurd h (by simp)
    · rename_i cmds hk
      exact mapCount_of_mapAt hk

/-- C14, amended. For every run that ends with `INCORRECT_STATE` because the next-state
token `z` of an executed instruction is not a key of the table, the current-state
field `curState` is still the state of that pass when `run` returns, and that state is
not `z`: only the local variable `state` of the loop holds `z`. -/
theorem run_incorrect_state_curState (env : Env) (M m0 m m2 m3 : TuringMachine)
    (s0 state cmd : Str) (n k : Nat)
    (hinit : runInit env M = .next m0 s0)
    (hreach : loopConfig env n m0 s0 = some (m, state))
    (herr : m.err = Error.NO_ERROR) (hstop : m.stop = false)
    (hfind : findLine (print env (changeState m state)) state = .ok (m2, cmd))
    (hwrite : writeLetter m2 cmd = .ok m3)
    (hhalt : (get cmd 3).take 4 ≠ "halt".toList)
    (hkey : mapCount m.commands (get cmd 3) = 0) :
    run env (n + (2 + k)) M
        = some (.ok { move m3 cmd with err := Error.INCORRECT_STATE }) ∧
      ({ move m3 cmd with err := Error.INCORRECT_STATE } : TuringMachine).curState = state ∧
      state ≠ get cmd 3 ∧
      loopConfig env (n + 1) m0 s0
        = some ({ move m3 cmd with err := Error.INCORRECT_STATE }, get cmd 3) := by
  have hp := pass_incorrect_state env m m2 m3 state cmd hstop herr hfind hwrite hhalt hkey
  have he : ¬ m.err ≠ Error.NO_ERROR := by simp [herr]
  have hcmds : (print env (changeState m state)).commands = m.commands := by
    rcases print_eq env (changeState m state) with hq | hq
    · rw [hq]; rfl
    · rw [hq]; rfl
  refine ⟨?_, ?_, ?_, ?_⟩
  · unfold run
    rw [hinit]
    simp only
    rw [runLoop_of_loopConfig env n (2 + k) m0 m s0 state hreach,
      show 2 + k = (k + 1) + 1 by omega, runLoop_succ, if_neg he, hp]
    simp only
    rw [runLoop_succ, if_pos (by simp)]
  · show (move m3 cmd).curState = state
    rw [(move_frame m3 cmd).2.1, writeLetter_ok_eq hwrite]
    show m2.curState = state
    rw [findLine_ok_fst hfind]
    rcases print_eq env (changeState m state) with hq | hq
    · rw [hq]; rfl
    · rw [hq]; rfl
  · intro hz
    have h1 := findLine_ok_key hfind
    rw [hcmds, hz, hkey] at h1
    exact absurd h1 (by decide)
  · rw [loopConfig_add env n 1 m0 m s0 state hreach, loopConfig_succ, if_neg he, hp]
    rfl

theorem run_incorrect_state_curState_witness :
    runInit (files "1".toList missingStateFile) (machine "a".toList)
        = .next missingStateLoaded "a".toList ∧
      (get " 1 1 r z".toList 3).take 4 ≠ "halt".toList ∧
      mapCount missingStateLoaded.commands (get " 1 1 r z".toList 3) = 0 ∧
      ({ move (changeState missingStateLoaded "a".toList) " 1 1 r z".toList with
          err := Error.INCORRECT_STATE } : TuringMachine).curState = "a".toList :=
  have hinit : runInit (files "1".toList missingStateFile) (machine "a".toList)
      = .next missingStateLoaded "a".toList := by decide
  have hhalt : (get " 1 1 r z".toList 3).take 4 ≠ "halt".toList := by decide
  have hkey : mapCount missingStateLoaded.commands (get " 1 1 r z".toList 3) = 0 := by
    decide
  ⟨hinit, hhalt, hkey,
    (run_incorrect_state_curState (files "1".toList missingStateFile) (machine "a".toList)
      missingStateLoaded missingStateLoaded (changeState missingStateLoaded "a".toList)
      (changeState missingStateLoaded "a".toList) "a".toList "a".toList " 1 1 r z".toList
      0 0 hinit rfl rfl rfl (by decide) (by decide) hhalt hkey).2.1⟩

/-- C14 as stated fails: on the tape `1` with the single instruction `(1,1,r,z)` of
state `a`, `run` returns `INCORRECT_STATE` with `curState` equal to `a`, not to the
missing name `z`. -/
theorem run_incorrect_state_curState_counterexample :
    get " 1 1 r z".toList 3 = "z".toList ∧
      mapCount missingStateLoaded.commands "z".toList = 0 ∧
      run (files "1".toList missingStateFile) 2 (machine "a".toList)
        = some (.ok { missingStateLoaded with
            line := "1 ".toList, pointer := 1, curState := "a".toList,
            err := Error.INCORRECT_STATE }) ∧
      ({ missingStateLoaded with
            line := "1 ".toList, pointer := 1, curState := "a".toList,
            err := Error.INCORRECT_STATE } : TuringMachine).curState ≠ "z".toList := by
  decide

/-- An assignment `line[pointer] = c` that is defined leaves `c` under the head and
changes neither the length of the tape nor any other cell. -/
theorem writeAt_spec {old new : Str} {p : Int} {c : Char}
    (h : writeAt old p c = some new) :
    readAt new p = some c ∧ new.length = old.length ∧
      (∀ i : Nat, i ≠ p.toNat → new[i]? = old[i]?) := by
  unfold writeAt at h
  split at h
  · exact absurd h (by simp)
  · rename_i hp
    split at h
    · rename_i hlt
      simp only [Option.some.injEq] at h
      subst h
      refine ⟨?_, by simp, ?_⟩
      · unfold readAt
        rw [if_neg hp, if_pos (by simpa using hlt)]
        simp [List.getD_eq_getElem?_getD, hlt]
      · intro i hi
        rw [List.getElem?_set_ne (Ne.symm hi)]
    · split at h
      · rename_i hge heq
        simp only [Option.some.injEq] at h
        subst h
        refine ⟨?_, rfl, fun _ _ => rfl⟩
        unfold readAt
        rw [if_neg hp, if_neg hge, if_pos heq.1, heq.2]
      · exact absurd h (by simp)

/-- C15. For every pass whose instruction has a write symbol `c` other than `*` and a
direction letter that is not recognised, the write stays and no move is made: `run`
returns right after that pass, and in the machine it returns the cell under the head
holds `c`, every other cell is as before the pass, and the head index and the length of
the tape are as before the pass. -/
theorem run_unrecognised_direction_write (env : Env) (M m0 m m2 m3 : TuringMachine)
    (s0 state cmd : Str) (n k : Nat)
    (hinit : runInit env M = .next m0 s0)
    (hreach : loopConfig env n m0 s0 = some (m, state))
    (herr : m.err = Error.NO_ERROR) (hstop : m.stop = false)
    (hfind : findLine (print env (changeState m state)) state = .ok (m2, cmd))
    (hwrite : writeLetter m2 cmd = .ok m3)
    (hc : getWriteLetter cmd ≠ '*')
    (hdir : ¬ recognisedDirection cmd) :
    run env (n + (2 + k)) M
        = some (.ok (getNextState { m3 with err := Error.INCORRECT_DIRECTION } cmd).1) ∧
      (getNextState { m3 with err := Error.INCORRECT_DIRECTION } cmd).1.line = m3.line ∧
      (getNextState { m3 with err := Error.INCORRECT_DIRECTION } cmd).1.pointer
        = m.pointer ∧
      readAt m3.line m.pointer = some (getWriteLetter cmd) ∧
      (∀ i, i ≠ m.pointer.toNat → m3.line[i]? = m.line[i]?) ∧
      m3.line.length = m.line.length := by
  have h2 : m2 = print env (changeState m state) := findLine_ok_fst hfind
  have hline : m2.line = m.line ∧ m2.pointer = m.pointer := by
    rw [h2]
    rcases print_eq env (changeState m state) with hq | hq
    · rw [hq]; exact ⟨rfl, rfl⟩
    · rw [hq]; exact ⟨rfl, rfl⟩
  have h3 := writeLetter_ok_eq hwrite
  have hptr : m3.pointer = m.pointer := by
    rw [h3]
    exact hline.2
  have hw : writeAt m.line m.pointer (getWriteLetter cmd) = some m3.line := by
    have hw0 := hwrite
    unfold writeLetter at hw0
    simp only [hc, ne_eq, not_false_eq_true, if_true, hline.1, hline.2] at hw0
    split at hw0
    · rename_i l hl
      simp only [Except.ok.injEq] at hw0
      rw [hl, ← hw0]
    · exact absurd hw0 (by simp)
  obtain ⟨hr, hlen, hothers⟩ := writeAt_spec hw
  have hmv := move_unrecognised m3 cmd hdir
  have hp := pass_exec env m m2 m3 state cmd hstop herr hfind hwrite
  rw [hmv] at hp
  have he : ¬ m.err ≠ Error.NO_ERROR := by simp [herr]
  have he5 : (getNextState { m3 with err := Error.INCORRECT_DIRECTION } cmd).1.err
      ≠ Error.NO_ERROR := by
    rcases getNextState_err { m3 with err := Error.INCORRECT_DIRECTION } cmd with e | e
    · rw [e]
      show Error.INCORRECT_DIRECTION ≠ Error.NO_ERROR
      decide
    · rw [e]
      decide
  refine ⟨?_, (getNextState_frame _ _).1, ?_, hr, hothers, hlen⟩
  · unfold run
    rw [hinit]
    simp only
    rw [runLoop_of_loopConfig env n (2 + k) m0 m s0 state hreach,
      show 2 + k = (k + 1) + 1 by omega, runLoop_succ, if_neg he, hp]
    simp only
    rw [runLoop_succ, if_pos he5]
  · rw [(getNextState_frame _ _).2.1]
    exact hptr

theorem run_unrecognised_direction_write_witness :
    runInit (files "1".toList badDirectionFile) (machine "a".toList)
        = .next badDirectionLoaded "a".toList ∧
      getWriteLetter " 1 0 x z".toList ≠ '*' ∧
      ¬ recognisedDirection " 1 0 x z".toList ∧
      run (files "1".toList badDirectionFile) 2 (machine "a".toList)
        = some (.ok { badDirectionLoaded with
            line := "0".toList, curState := "a".toList,
            err := Error.INCORRECT_STATE }) :=
  have hinit : runInit (files "1".toList badDirectionFile) (machine "a".toList)
      = .next badDirectionLoaded "a".toList := by decide
  have hc : getWriteLetter " 1 0 x z".toList ≠ '*' := by decide
  have hdir : ¬ recognisedDirection " 1 0 x z".toList := by
    unfold recognisedDirection; decide
  ⟨hinit, hc, hdir,
    (run_unrecognised_direction_write (files "1".toList badDirectionFile)
      (machine "a".toList) badDirectionLoaded badDirectionLoaded
      (changeState badDirectionLoaded "a".toList)
      { changeState badDirectionLoaded "a".toList with line := "0".toList }
      "a".toList "a".toList " 1 0 x z".toList
      0 0 hinit rfl rfl rfl (by decide) (by decide) hc hdir).1⟩

/-! ## After the stop flag or an error -/

/-- At the head of the loop, a machine with the stop flag set or an error recorded is
not changed any more in its tape and head: with an error the loop is left at once, and
with the stop flag the pass only sets the current state and reports. -/
theorem runLoop_terminal (env : Env) (m : TuringMachine) (state : Str) (k : Nat)
    (h : m.stop = true ∨ m.err ≠ Error.NO_ERROR) :
    ∃ mf, runLoop env (k + 1) m state = some (.ok mf) ∧
      mf.line = m.line ∧ mf.pointer = m.pointer ∧
      (m.err ≠ Error.NO_ERROR → mf = m) ∧ (outputOpens env m → mf.err = m.err) := by
  rw [runLoop_succ]
  by_cases he : m.err ≠ Error.NO_ERROR
  · rw [if_pos he]
    exact ⟨m, rfl, rfl, rfl, fun _ => rfl, fun _ => rfl⟩
  · rw [if_neg he]
    have hstop : m.stop = true := by
      rcases h with h | h
      · exact h
      · exact absurd h he
    rw [pass_stop env m state hstop]
    refine ⟨print env (changeState m state), rfl, ?_, ?_, fun h1 => absurd h1 he, ?_⟩
    · rcases print_eq env (changeState m state) with hq | hq
      · rw [hq]; rfl
      · rw [hq]; rfl
    · rcases print_eq env (changeState m state) with hq | hq
      · rw [hq]; rfl
      · rw [hq]; rfl
    · intro ho
      have ho1 : outputOpens env (changeState m state) := ho
      rw [print_of_outputOpens ho1]
      rfl

/-- C17, on the code. An error recorded inside a pass does not end the pass.
With reports to `output.txt`, which does not open, `print` records `OPENING_FILE` at the
start of the first pass, on the tape `1` with the head on cell 0; the same pass then
writes `0` and moves right, and `run` returns `OPENING_FILE` with the tape `0 ` and the
head on cell 1. With the instruction `(1,0,x,z)`, `move` records
`INCORRECT_DIRECTION` and `getNextState` replaces it by `INCORRECT_STATE`. -/
theorem run_mutation_after_error :
    runInit (files "1".toList stepFile) (machineTo "output.txt".toList "a".toList)
        = .next stepLoadedTo "a".toList ∧
      print (files "1".toList stepFile) (changeState stepLoadedTo "a".toList)
        = { stepLoadedTo with curState := "a".toList, err := Error.OPENING_FILE } ∧
      run (files "1".toList stepFile) 2 (machineTo "output.txt".toList "a".toList)
        = some (.ok { stepLoadedTo with
            line := "0 ".toList, pointer := 1, curState := "a".toList,
            err := Error.OPENING_FILE }) ∧
      move { changeState badDirectionLoaded "a".toList with line := "0".toList }
          " 1 0 x z".toList
        = { badDirectionLoaded with
            line := "0".toList, curState := "a".toList,
            err := Error.INCORRECT_DIRECTION } ∧
      run (files "1".toList badDirectionFile) 2 (machine "a".toList)
        = some (.ok { badDirectionLoaded with
            line := "0".toList, curState := "a".toList,
            err := Error.INCORRECT_STATE }) := by
  decide

/-! ## Lookups are made for keys of the table -/

/-- A fault of the loop is the fault of a pass the loop gets to. -/
theorem runLoop_fault_inv (env : Env) (fuel : Nat) (m : TuringMachine) (state : Str)
    (f : Fault) (h : runLoop env fuel m state = some (.error f)) :
    ∃ n m1 s1, loopConfig env n m state = some (m1, s1) ∧ m1.err = Error.NO_ERROR ∧
      pass env m1 s1 = .fault f := by
  induction fuel generalizing m state with
  | zero => simp [runLoop] at h
  | succ fuel ih =>
    rw [runLoop_succ] at h
    by_cases he : m.err ≠ Error.NO_ERROR
    · rw [if_pos he] at h
      simp at h
    · rw [if_neg he] at h
      cases hp : pass env m state with
      | next m1 s1 =>
        rw [hp] at h
        simp only at h
        obtain ⟨n, m2, s2, h1, h2, h3⟩ := ih m1 s1 h
        refine ⟨n + 1, m2, s2, ?_, h2, h3⟩
        rw [loopConfig_succ, if_neg he, hp]
        exact h1
      | exit m1 =>
        rw [hp] at h
        simp at h
      | fault f1 =>
        rw [hp] at h
        simp only [Option.some.injEq, Except.error.injEq] at h
        subst h
        exact ⟨0, m, state, rfl, by simpa using he, hp⟩

/-- The state a pass ends with is a key of the table, unless the pass has set the stop
flag or recorded an error. -/
theorem pass_next_key (env : Env) (m m5 : TuringMachine) (state s5 : Str)
    (h : pass env m state = .next m5 s5) :
    m5.err ≠ Error.NO_ERROR ∨ m5.stop = true ∨ mapCount m5.commands s5 ≠ 0 := by
  obtain ⟨_, cmd, m3, _, _, hm5, hs5⟩ := pass_next_inv env m m5 state s5 h
  by_cases hh : (get cmd 3).take 4 = "halt".toList
  · right; left
    rw [hm5, getNextState_halt _ _ hh]
  · by_cases hk : mapCount (move m3 cmd).commands (get cmd 3) = 0
    · left
      rw [hm5, getNextState_missing _ _ hh hk]
      show Error.INCORRECT_STATE ≠ Error.NO_ERROR
      decide
    · right; right
      rw [hm5, hs5, getNextState_key _ _ hh hk]
      exact hk

/-- C19. If the state the loop is entered with is a key of the table, then in every
pass of the loop that gets to the lookup the state passed to `findLine` is a key of the
table, so `commands.at` does not throw, in no pass and in no run: a state adopted after
a pass was found in the table by `getNextState`, or has set the stop flag and leaves the
loop before the lookup, or comes with an error that ends the loop. -/
theorem lookup_key_invariant (env : Env) (M m0 : TuringMachine) (s0 : Str)
    (hinit : runInit env M = .next m0 s0) (hkey : mapCount m0.commands s0 ≠ 0) :
    (∀ n m s, loopConfig env n m0 s0 = some (m, s) → m.err = Error.NO_ERROR →
        m.stop = false →
        ∃ cmds, mapAt (print env (changeState m s)).commands
          (print env (changeState m s)).curState = some cmds) ∧
      (∀ n m s, loopConfig env n m0 s0 = some (m, s) → m.err = Error.NO_ERROR →
        pass env m s ≠ .fault Fault.missingKey) ∧
      (∀ fuel, run env fuel M ≠ some (.error Fault.missingKey)) := by
  have inv : ∀ n m s, loopConfig env n m0 s0 = some (m, s) →
      m.err ≠ Error.NO_ERROR ∨ m.stop = true ∨ mapCount m.commands s ≠ 0 := by
    intro n m s hc
    cases n with
    | zero =>
      simp only [loopConfig, Option.some.injEq, Prod.mk.injEq] at hc
      rw [← hc.1, ← hc.2]
      exact Or.inr (Or.inr hkey)
    | succ n =>
      obtain ⟨m1, s1, _, _, hp⟩ := loopConfig_succ_last env n m0 m s0 s hc
      exact pass_next_key env m1 m s1 s hp
  have lookup : ∀ n m s, loopConfig env n m0 s0 = some (m, s) → m.err = Error.NO_ERROR →
      m.stop = false →
      ∃ cmds, mapAt (print env (changeState m s)).commands
        (print env (changeState m s)).curState = some cmds := by
    intro n m s hc he hs
    have hk : mapCount m.commands s ≠ 0 := by
      rcases inv n m s hc with h | h | h
      · exact absurd he h
      · rw [hs] at h
        exact absurd h (by decide)
      · exact h
    have hpe : (print env (changeState m s)).commands = m.commands ∧
        (print env (changeState m s)).curState = s := by
      rcases print_eq env (changeState m s) with hq | hq
      · rw [hq]; exact ⟨rfl, rfl⟩
      · rw [hq]; exact ⟨rfl, rfl⟩
    rw [hpe.1, hpe.2]
    exact mapAt_of_mapCount hk
  have nofault : ∀ n m s, loopConfig env n m0 s0 = some (m, s) → m.err = Error.NO_ERROR →
      pass env m s ≠ .fault Fault.missingKey := by
    intro n m s hc he hf
    cases hs : m.stop with
    | true =>
      rw [pass_stop env m s hs] at hf
      exact absurd hf (by simp)
    | false =>
      obtain ⟨cmds, hcm⟩ := lookup n m s hc he hs
      have hs1 : (print env (changeState m s)).stop = false := by
        rcases print_eq env (changeState m s) with hq | hq
        · rw [hq]; exact hs
        · rw [hq]; exact hs
      unfold TuringMachine.pass at hf
      simp only [hs1, Bool.false_eq_true, if_false] at hf
      unfold findLine at hf
      rw [hcm] at hf
      simp only at hf
      split at hf
      · rename_i f hfl
        split at hfl
        · simp only [Except.error.injEq] at hfl
          rw [← hfl] at hf
          simp at hf
        · split at hfl
          · simp at hfl
          · split at hfl
            · simp at hfl
            · simp only [Except.error.injEq] at hfl
              rw [← hfl] at hf
              simp at hf
      · split at hf
        · simp at hf
        · split at hf
          · rename_i f hw
            unfold writeLetter at hw
            simp only at hw
            split at hw
            · split at hw
              · simp at hw
              · simp only [Except.error.injEq] at hw
                rw [← hw] at hf
                simp at hf
            · simp at hw
          · simp at hf
  refine ⟨lookup, nofault, ?_⟩
  intro fuel hr
  unfold run at hr
  rw [hinit] at hr
  simp only at hr
  obtain ⟨n, m1, s1, h1, h2, h3⟩ := runLoop_fault_inv env fuel m0 s0 _ hr
  exact nofault n m1 s1 h1 h2 h3

theorem lookup_key_invariant_witness :
    runInit (files "101".toList flipFile) (machine "a".toList)
        = .next { machine "a".toList with line := "101".toList, commands := flipTable }
          "a".toList ∧
      mapCount flipTable "a".toList ≠ 0 ∧
      run (files "101".toList flipFile) 4 (machine "a".toList)
        ≠ some (.error Fault.missingKey) :=
  have hinit : runInit (files "101".toList flipFile) (machine "a".toList)
      = .next { machine "a".toList with line := "101".toList, commands := flipTable }
        "a".toList := by decide
  have hkey : mapCount flipTable "a".toList ≠ 0 := by decide
  ⟨hinit, hkey,
    (lookup_key_invariant (files "101".toList flipFile) (machine "a".toList)
      { machine "a".toList with line := "101".toList, commands := flipTable }
      "a".toList hinit hkey).2.2 4⟩

/-! ## The head and the tape during a run -/

theorem writeLetter_headInRange {m m3 : TuringMachine} {cmd : Str}
    (h : writeLetter m cmd = .ok m3) (hr : headInRange m) :
    headInRange m3 ∧ m3.line.length = m.line.length := by
  unfold writeLetter at h
  simp only at h
  split at h
  · split at h
    · rename_i l hl
      simp only [Except.ok.injEq] at h
      subst h
      obtain ⟨_, hlen, _⟩ := writeAt_spec hl
      refine ⟨?_, hlen⟩
      unfold headInRange at hr ⊢
      show 0 ≤ m.pointer ∧ m.pointer < (l.length : Int)
      rw [hlen]
      exact hr
    · exact absurd h (by simp)
  · simp only [Except.ok.injEq] at h
    subst h
    exact ⟨hr, rfl⟩

theorem move_headInRange (m : TuringMachine) (cmd : Str) (hr : headInRange m)
    (hb : m.pointer < INT_MAX) :
    headInRange (move m cmd) ∧ (move m cmd).line.length ≤ m.line.length + 1 := by
  by_cases h : recognisedDirection cmd
  · unfold move
    simp only [getDirection_recognised m cmd h]
    split
    · obtain ⟨h1, h2⟩ := applyMove_spec m .right hr hb
      refine ⟨h1, ?_⟩
      have h3 : (moveRight m).line.length
          = m.line.length + (if crossesBoundary m .right then 1 else 0) := h2
      rw [h3]
      split <;> omega
    · split
      · obtain ⟨h1, h2⟩ := applyMove_spec m .left hr hb
        refine ⟨h1, ?_⟩
        have h3 : (moveLeft m).line.length
            = m.line.length + (if crossesBoundary m .left then 1 else 0) := h2
        rw [h3]
        split <;> omega
      · exact ⟨hr, by omega⟩
  · rw [move_unrecognised m cmd h]
    exact ⟨hr, Nat.le_succ _⟩

theorem pass_next_headInRange (env : Env) (m m5 : TuringMachine) (state s5 : Str)
    (h : pass env m state = .next m5 s5) (hr : headInRange m)
    (hb : m.line.length < 2 ^ 31) :
    headInRange m5 ∧ m5.line.length ≤ m.line.length + 1 := by
  obtain ⟨_, cmd, m3, _, hw, hm5, _⟩ := pass_next_inv env m m5 state s5 h
  have h1 : headInRange (print env (changeState m state)) ∧
      (print env (changeState m state)).line.length = m.line.length := by
    rcases print_eq env (changeState m state) with hq | hq
    · rw [hq]; exact ⟨hr, rfl⟩
    · rw [hq]; exact ⟨hr, rfl⟩
  obtain ⟨h3, hl3⟩ := writeLetter_headInRange hw h1.1
  have hb3 : m3.pointer < INT_MAX := by
    have := h3.2
    unfold INT_MAX
    rw [hl3, h1.2] at this
    omega
  obtain ⟨h4, hl4⟩ := move_headInRange m3 cmd h3 hb3
  unfold headInRange at h4 ⊢
  rw [hm5, (getNextState_frame _ _).1, (getNextState_frame _ _).2.1]
  refine ⟨h4, ?_⟩
  rw [hl3, h1.2] at hl4
  exact hl4

/-- When the loop is entered with the head on a cell of the tape, the head is on a cell
of the tape in every configuration the loop gets to while the tape has at most `2^31`
cells; a pass lengthens the tape by one cell at most. -/
theorem loopConfig_headInRange (env : Env) (m0 : TuringMachine) (s0 : Str)
    (h0 : headInRange m0) (n : Nat) (hb : m0.line.length + n ≤ 2 ^ 31) :
    ∀ m s, loopConfig env n m0 s0 = some (m, s) →
      headInRange m ∧ m.line.length ≤ m0.line.length + n := by
  induction n with
  | zero =>
    intro m s hc
    simp only [loopConfig, Option.some.injEq, Prod.mk.injEq] at hc
    rw [← hc.1]
    exact ⟨h0, Nat.le_refl _⟩
  | succ n ih =>
    intro m s hc
    obtain ⟨m1, s1, h1, _, hp⟩ := loopConfig_succ_last env n m0 m s0 s hc
    obtain ⟨hr1, hl1⟩ := ih (by omega) m1 s1 h1
    obtain ⟨hr, hl⟩ := pass_next_headInRange env m1 m s1 s hp hr1 (by omega)
    exact ⟨hr, by omega⟩

/-- C16, on the code. With an empty input file the tape is empty and the loop is
entered with the head 0 on a tape of length 0, which is no cell. With the instruction
`(*,*,r,a)` the first pass reads the terminator, and `moveRight`, whose bound
`line.size() - 1` wraps around, moves the head to 1 without lengthening the tape; the
lookup of the second pass then reads `line[1]` outside the string. With the instruction
`(*,1,r,a)` the first pass writes `line[0]` on the empty string. -/
theorem run_empty_tape :
    runInit (files [] sweepFile) (machine "a".toList) = .next sweepLoaded "a".toList ∧
      sweepLoaded.line = [] ∧ sweepLoaded.pointer = 0 ∧
      ¬ headInRange sweepLoaded ∧
      loopConfig (files [] sweepFile) 1 sweepLoaded "a".toList
        = some ({ sweepLoaded with pointer := 1, curState := "a".toList }, "a".toList) ∧
      run (files [] sweepFile) 2 (machine "a".toList) = some (.error Fault.tapeIndex) ∧
      run (files [] stampFile) 1 (machine "a".toList) = some (.error Fault.tapeIndex) := by
  unfold headInRange
  decide

/-! ## The table: order of the keys and initial state -/

theorem char_eq_of_toNat_eq {a b : Char} (h : a.toNat = b.toNat) : a = b := by
  apply Char.eq_of_val_eq
  apply UInt32.eq_of_val_eq
  apply Fin.eq_of_val_eq
  exact h

theorem strLt_cons_cons (a b : Char) (as bs : Str) :
    strLt (a :: as) (b :: bs) = true ↔
      a.toNat < b.toNat ∨ (a.toNat = b.toNat ∧ strLt as bs = true) := by
  rw [strLt]
  by_cases h1 : a.toNat < b.toNat
  · simp [h1]
  · by_cases h2 : b.toNat < a.toNat
    · simp only [h1, h2, if_false, if_true, false_or]
      constructor
      · intro h; exact absurd h (by simp)
      · intro h; omega
    · simp only [h1, h2, if_false, false_or]
      constructor
      · intro h; exact ⟨by omega, h⟩
      · intro h; exact h.2

theorem strLt_irrefl (a : Str) : strLt a a = false := by
  induction a with
  | nil => rfl
  | cons x xs ih =>
    rw [Bool.eq_false_iff]
    intro h
    rw [strLt_cons_cons] at h
    rcases h with h | h
    · omega
    · rw [ih] at h
      exact absurd h.2 (by simp)

theorem strLt_trans {a b c : Str} (h1 : strLt a b = true) (h2 : strLt b c = true) :
    strLt a c = true := by
  induction a generalizing b c with
  | nil =>
    cases b with
    | nil => simp [strLt] at h1
    | cons y ys =>
      cases c with
      | nil => simp [strLt] at h2
      | cons z zs => rfl
  | cons x xs ih =>
    cases b with
    | nil => simp [strLt] at h1
    | cons y ys =>
      cases c with
      | nil => simp [strLt] at h2
      | cons z zs =>
        rw [strLt_cons_cons] at h1 h2 ⊢
        rcases h1 with h1 | h1
        · rcases h2 with h2 | h2
          · left; omega
          · left; omega
        · rcases h2 with h2 | h2
          · left; omega
          · right
            exact ⟨by omega, ih h1.2 h2.2⟩

/-- Two different strings are ordered one way or the other. -/
theorem strLt_total {a b : Str} (hne : a ≠ b) (h : strLt a b = false) :
    strLt b a = true := by
  induction a generalizing b with
  | nil =>
    cases b with
    | nil => exact absurd rfl hne
    | cons y ys => simp [strLt] at h
  | cons x xs ih =>
    cases b with
    | nil => rfl
    | cons y ys =>
      rw [Bool.eq_false_iff, Ne, strLt_cons_cons] at h
      rw [strLt_cons_cons]
      simp only [not_or, not_and] at h
      by_cases hlt : y.toNat < x.toNat
      · exact Or.inl hlt
      · right
        have heq : x.toNat = y.toNat := by omega
        have hxy : x = y := char_eq_of_toNat_eq heq
        refine ⟨heq.symm, ih ?_ ?_⟩
        · intro hxs
          exact hne (by rw [hxy, hxs])
        · rw [Bool.eq_false_iff]
          exact h.2 heq

theorem mem_keys_mapPush {c : Commands} {key cur k : Str}
    (h : k ∈ (mapPush c key cur).map Prod.fst) : k = key ∨ k ∈ c.map Prod.fst := by
  induction c with
  | nil =>
    simp only [mapPush, List.map_cons, List.map_nil, List.mem_singleton] at h
    exact Or.inl h
  | cons a rest ih =>
    obtain ⟨k1, v1⟩ := a
    unfold mapPush at h
    split at h
    · right
      simpa using h
    · split at h
      · simp only [List.map_cons, List.mem_cons] at h ⊢
        rcases h with h | h | h
        · exact Or.inl h
        · exact Or.inr (Or.inl h)
        · exact Or.inr (Or.inr h)
      · simp only [List.map_cons, List.mem_cons] at h ⊢
        rcases h with h | h
        · exact Or.inr (Or.inl h)
        · rcases ih h with h | h
          · exact Or.inl h
          · exact Or.inr (Or.inr h)

/-- The statement `commands[key].push_back(cur)` keeps the keys in order. -/
theorem mapPush_keysSorted {c : Commands} (key cur : Str) (hs : keysSorted c) :
    keysSorted (mapPush c key cur) := by
  induction c with
  | nil => simp [keysSorted, mapPush]
  | cons a rest ih =>
    obtain ⟨k1, v1⟩ := a
    unfold keysSorted at hs ih ⊢
    simp only [List.map_cons, List.pairwise_cons] at hs
    unfold mapPush
    split
    · simp only [List.map_cons, List.pairwise_cons]
      exact hs
    · rename_i hne
      split
      · rename_i hlt
        simp only [List.map_cons, List.pairwise_cons, List.mem_cons]
        refine ⟨?_, hs⟩
        intro x hx
        rcases hx with hx | hx
        · rw [hx]; exact hlt
        · exact strLt_trans hlt (hs.1 x hx)
      · rename_i hnlt
        simp only [List.map_cons, List.pairwise_cons]
        refine ⟨?_, ih hs.2⟩
        intro x hx
        rcases mem_keys_mapPush hx with hx | hx
        · rw [hx]
          exact strLt_total (fun e => hne e.symm) (by simpa using hnlt)
        · exact hs.1 x hx

/-- The loop of `readInstructions` keeps the keys in order. -/
theorem readInstructionsLoop_keysSorted (lines : List Str) (cur : Str) (c : Commands)
    (hs : keysSorted c) : keysSorted (readInstructionsLoop lines cur c) := by
  induction lines generalizing cur c with
  | nil => exact hs
  | cons tmp rest ih =>
    unfold readInstructionsLoop
    split
    · exact ih cur c hs
    · simp only
      split
      · exact ih cur c hs
      · exact ih _ _ (mapPush_keysSorted _ _ hs)

theorem mem_keys_of_mapCount {c : Commands} {k : Str} (h : mapCount c k ≠ 0) :
    k ∈ c.map Prod.fst := by
  induction c with
  | nil => simp [mapCount] at h
  | cons a rest ih =>
    obtain ⟨k1, v1⟩ := a
    unfold mapCount at h
    by_cases hk : k1 = k
    · simp [hk]
    · rw [if_neg hk] at h
      simp only [List.map_cons, List.mem_cons]
      exact Or.inr (ih h)

/-- C13. For a table that is not empty after the two reads have succeeded: when the
initial state is the sentinel `smallest_key`, the loop is entered with the smallest key
of the table in the order of `std::string`, which is the lexicographic one; when an
initial state is configured, the loop is entered with exactly that name. The first pass
makes that name the current state. -/
theorem runInit_initial_state (env : Env) (M : TuringMachine)
    (hs : keysSorted M.commands)
    (herr : (loaded env M).err = Error.NO_ERROR)
    (hne : (loaded env M).commands ≠ []) :
    (M.initState = "smallest_key".toList →
        ∃ s, runInit env M = .next (loaded env M) s ∧
          mapCount (loaded env M).commands s ≠ 0 ∧
          (∀ k, mapCount (loaded env M).commands k ≠ 0 → k = s ∨ strLt s k = true) ∧
          (changeState (loaded env M) s).curState = s) ∧
      (M.initState ≠ "smallest_key".toList →
        runInit env M = .next (loaded env M) M.initState ∧
          (changeState (loaded env M) M.initState).curState = M.initState) := by
  have hinit : (loaded env M).initState = M.initState := by
    unfold loaded readInstructions readLine
    split <;> split <;> rfl
  have hsorted : keysSorted (loaded env M).commands := by
    unfold loaded readInstructions
    split
    · have : (readLine env M).commands = M.commands := by
        unfold readLine
        split <;> rfl
      show keysSorted (readInstructionsLoop _ [] (readLine env M).commands)
      rw [this]
      exact readInstructionsLoop_keysSorted _ _ _ hs
    · show keysSorted (readLine env M).commands
      unfold readLine
      split <;> exact hs
  have he : ¬ (loaded env M).err ≠ Error.NO_ERROR := by simp [herr]
  constructor
  · intro hsk
    cases hc : (loaded env M).commands with
    | nil => exact absurd hc hne
    | cons a rest =>
      obtain ⟨k1, v1⟩ := a
      refine ⟨k1, ?_, ?_, ?_, rfl⟩
      · unfold runInit
        show (if (loaded env M).err ≠ Error.NO_ERROR then Pass.exit (loaded env M)
          else if (loaded env M).initState = "smallest_key".toList then
            match mapBegin (loaded env M).commands with
            | none => Pass.fault Fault.emptyTable
            | some state => Pass.next (loaded env M) state
          else Pass.next (loaded env M) (loaded env M).initState) = _
        rw [if_neg he, hinit, if_pos hsk, hc]
        rfl
      · simp [mapCount]
      · intro k hk
        rw [hc] at hsorted
        unfold keysSorted at hsorted
        simp only [List.map_cons, List.pairwise_cons] at hsorted
        have hm := mem_keys_of_mapCount hk
        simp only [List.map_cons, List.mem_cons] at hm
        rcases hm with hm | hm
        · exact Or.inl hm
        · exact Or.inr (hsorted.1 k hm)
  · intro hsk
    refine ⟨?_, rfl⟩
    unfold runInit
    show (if (loaded env M).err ≠ Error.NO_ERROR then Pass.exit (loaded env M)
      else if (loaded env M).initState = "smallest_key".toList then
        match mapBegin (loaded env M).commands with
        | none => Pass.fault Fault.emptyTable
        | some state => Pass.next (loaded env M) state
      else Pass.next (loaded env M) (loaded env M).initState) = _
    rw [if_neg he, hinit, if_neg hsk]

theorem runInit_initial_state_witness :
    keysSorted (machine "smallest_key".toList).commands ∧
      (loaded (files "101".toList unorderedFile) (machine "smallest_key".toList)).err
        = Error.NO_ERROR ∧
      (loaded (files "101".toList unorderedFile) (machine "smallest_key".toList)).commands
        = [("a".toList, [" 1 0 r b".toList]), ("b".toList, [" * * * halt".toList])] ∧
      (∃ s, runInit (files "101".toList unorderedFile) (machine "smallest_key".toList)
          = .next (loaded (files "101".toList unorderedFile)
              (machine "smallest_key".toList)) s ∧
        mapCount (loaded (files "101".toList unorderedFile)
          (machine "smallest_key".toList)).commands s ≠ 0 ∧
        (∀ k, mapCount (loaded (files "101".toList unorderedFile)
            (machine "smallest_key".toList)).commands k ≠ 0 → k = s ∨ strLt s k = true) ∧
        (changeState (loaded (files "101".toList unorderedFile)
          (machine "smallest_key".toList)) s).curState = s) :=
  have hs : keysSorted (machine "smallest_key".toList).commands := by
    unfold keysSorted
    exact List.Pairwise.nil
  have herr : (loaded (files "101".toList unorderedFile)
      (machine "smallest_key".toList)).err = Error.NO_ERROR := by decide
  ⟨hs, herr, by decide,
    (runInit_initial_state (files "101".toList unorderedFile)
      (machine "smallest_key".toList) hs herr (by decide)).1 rfl⟩

/-! ## The table: `readInstructions` -/

theorem readInstructionsLoop_cons (tmp : Str) (rest : List Str) (cur : Str)
    (c : Commands) :
    readInstructionsLoop (tmp :: rest) cur c
      = if tmp.headD NUL = ';' then readInstructionsLoop rest cur c
        else if tmp.dropWhile isSpace = [] then readInstructionsLoop rest cur c
        else
          readInstructionsLoop rest
            (if (tmp.dropWhile isSpace).dropWhile (fun c => !isSpace c) = [] then cur
              else ((tmp.dropWhile isSpace).dropWhile (fun c => !isSpace c)).takeWhile
                (fun c => c ≠ '\n'))
            (mapPush c ((tmp.dropWhile isSpace).takeWhile (fun c => !isSpace c))
              (if (tmp.dropWhile isSpace).dropWhile (fun c => !isSpace c) = [] then cur
                else ((tmp.dropWhile isSpace).dropWhile (fun c => !isSpace c)).takeWhile
                  (fun c => c ≠ '\n'))) := rfl

theorem readInstructionsLoop_of_none (tmp : Str) (rest : List Str) (cur : Str)
    (c : Commands) (h : recordOf tmp = none) :
    readInstructionsLoop (tmp :: rest) cur c = readInstructionsLoop rest cur c := by
  unfold recordOf at h
  rw [readInstructionsLoop_cons]
  by_cases h1 : tmp.headD NUL = ';'
  · rw [if_pos h1]
  · rw [if_neg h1] at h ⊢
    by_cases h2 : tmp.dropWhile isSpace = []
    · rw [if_pos h2]
    · rw [if_neg h2] at h
      exact absurd h (by simp)

/-- A line with something after its first word files the text after that word under
that word. -/
theorem readInstructionsLoop_of_some (tmp : Str) (rest : List Str) (cur : Str)
    (c : Commands) (r : Str × Str) (h : recordOf tmp = some r) (hw : wordFollowed tmp) :
    readInstructionsLoop (tmp :: rest) cur c
      = readInstructionsLoop rest r.2 (mapPush c r.1 r.2) := by
  unfold recordOf at h
  unfold wordFollowed at hw
  rw [readInstructionsLoop_cons]
  by_cases h1 : tmp.headD NUL = ';'
  · rw [if_pos h1] at h
    exact absurd h (by simp)
  · rw [if_neg h1] at h ⊢
    by_cases h2 : tmp.dropWhile isSpace = []
    · rw [if_pos h2] at h
      exact absurd h (by simp)
    · rw [if_neg h2] at h ⊢
      simp only [Option.some.injEq] at h
      rw [if_neg hw, ← h]

/-- A line made of one word and nothing after it files under that word the text the
previous record has left in `cur`. -/
theorem readInstructionsLoop_of_stale (tmp : Str) (rest : List Str) (cur : Str)
    (c : Commands) (r : Str × Str) (h : recordOf tmp = some r) (hw : ¬ wordFollowed tmp) :
    readInstructionsLoop (tmp :: rest) cur c
      = readInstructionsLoop rest cur (mapPush c r.1 cur) := by
  unfold recordOf at h
  unfold wordFollowed at hw
  simp only [ne_eq, not_not] at hw
  rw [readInstructionsLoop_cons]
  by_cases h1 : tmp.headD NUL = ';'
  · rw [if_pos h1] at h
    exact absurd h (by simp)
  · rw [if_neg h1] at h ⊢
    by_cases h2 : tmp.dropWhile isSpace = []
    · rw [if_pos h2] at h
      exact absurd h (by simp)
    · rw [if_neg h2] at h ⊢
      simp only [Option.some.injEq] at h
      rw [if_pos hw, ← h]

/-- C18, on the code. With the lines `a 1 0 r a` and `b`, the second of which is a
record whose first word is `b` and whose instruction is empty, `std::getline(s, cur)`
fails on the second line and leaves in `cur` the instruction of the first one, which
`readInstructions` files under `b`: the table maps `b` to ` 1 0 r a`, an instruction
of a record whose first word is `a`. -/
theorem readInstructions_stale_record :
    getlines staleFile = ["a 1 0 r a".toList, "b".toList] ∧
      recordOf "b".toList = some ("b".toList, []) ∧
      instructionsOf (getlines staleFile) "b".toList = [[]] ∧
      readInstructionsLoop (getlines staleFile) [] []
        = [("a".toList, [" 1 0 r a".toList]), ("b".toList, [" 1 0 r a".toList])] ∧
      (readInstructions (files "1".toList staleFile) (machine "a".toList)).commands
        = [("a".toList, [" 1 0 r a".toList]), ("b".toList, [" 1 0 r a".toList])] := by
  decide

theorem mapAt_none_of_lt {c : Commands} {key : Str}
    (h : ∀ x ∈ c.map Prod.fst, strLt key x = true) : mapAt c key = none := by
  induction c with
  | nil => rfl
  | cons a rest ih =>
    obtain ⟨k1, v1⟩ := a
    simp only [List.map_cons, List.mem_cons, forall_eq_or_imp] at h
    unfold mapAt
    have hne : ¬ k1 = key := by
      intro e
      have h1 := h.1
      rw [e, strLt_irrefl] at h1
      exact absurd h1 (by simp)
    rw [if_neg hne]
    exact ih h.2

/-- What `commands.at` finds after `commands[key].push_back(cur)`. -/
theorem mapAt_mapPush {c : Commands} (key cur s : Str) (hs : keysSorted c) :
    mapAt (mapPush c key cur) s
      = if s = key then some ((mapAt c key).getD [] ++ [cur]) else mapAt c s := by
  induction c with
  | nil =>
    unfold mapPush
    by_cases h : s = key
    · rw [if_pos h, h]
      simp [mapAt]
    · rw [if_neg h]
      have h1 : ¬ key = s := fun e => h e.symm
      simp [mapAt, h1]
  | cons a rest ih =>
    obtain ⟨k1, v1⟩ := a
    unfold keysSorted at hs ih
    simp only [List.map_cons, List.pairwise_cons] at hs
    unfold mapPush
    by_cases hk : k1 = key
    · rw [if_pos hk]
      by_cases h : s = key
      · rw [if_pos h, h]
        simp [mapAt, hk]
      · rw [if_neg h]
        have h1 : ¬ k1 = s := fun e => h (by rw [← e, hk])
        simp [mapAt, h1]
    · rw [if_neg hk]
      by_cases hlt : strLt key k1 = true
      · rw [if_pos hlt]
        by_cases h : s = key
        · rw [if_pos h, h]
          have hnone : mapAt ((k1, v1) :: rest) key = none := by
            apply mapAt_none_of_lt
            intro x hx
            simp only [List.map_cons, List.mem_cons] at hx
            rcases hx with hx | hx
            · rw [hx]; exact hlt
            · exact strLt_trans hlt (hs.1 x hx)
          rw [hnone]
          simp [mapAt]
        · rw [if_neg h]
          have h1 : ¬ key = s := fun e => h e.symm
          rw [mapAt, if_neg h1]
      · rw [if_neg hlt]
        by_cases h : s = key
        · subst h
          simp [mapAt, hk, ih hs.2]
        · by_cases h1 : k1 = s
          · simp [mapAt, h, h1]
          · simp [mapAt, h, h1, ih hs.2]

theorem instructionsOf_cons (tmp : Str) (rest : List Str) (s : Str) :
    instructionsOf (tmp :: rest) s
      = (match recordOf tmp with
          | some r => if r.1 = s then [r.2] else []
          | none => []) ++ instructionsOf rest s := by
  unfold instructionsOf
  cases h : recordOf tmp with
  | none => simp [List.filterMap_cons, h]
  | some r =>
    by_cases hk : r.1 = s
    · simp [List.filterMap_cons, h, hk]
    · simp [List.filterMap_cons, h, hk]

/-- When every record has something after its first word, the loop of
`readInstructions` adds to each state the instructions of the records that begin with
that state, in the order of the lines, and to no other state. -/
theorem readInstructionsLoop_spec (lines : List Str) (cur : Str) (c : Commands) (s : Str)
    (hs : keysSorted c)
    (hw : ∀ tmp ∈ lines, recordOf tmp ≠ none → wordFollowed tmp) :
    mapAt (readInstructionsLoop lines cur c) s
      = if instructionsOf lines s = [] then mapAt c s
        else some ((mapAt c s).getD [] ++ instructionsOf lines s) := by
  induction lines generalizing cur c with
  | nil => simp [readInstructionsLoop, instructionsOf]
  | cons tmp rest ih =>
    have hwr : ∀ t ∈ rest, recordOf t ≠ none → wordFollowed t :=
      fun t ht => hw t (List.mem_cons_of_mem _ ht)
    rw [instructionsOf_cons]
    cases h : recordOf tmp with
    | none =>
      rw [readInstructionsLoop_of_none _ _ _ _ h, ih cur c hs hwr]
      simp
    | some r =>
      have hf : wordFollowed tmp := hw tmp (List.mem_cons_self _ _) (by simp [h])
      rw [readInstructionsLoop_of_some _ _ _ _ r h hf,
        ih r.2 (mapPush c r.1 r.2) (mapPush_keysSorted _ _ hs) hwr, mapAt_mapPush _ _ _ hs]
      by_cases hk : r.1 = s
      · subst hk
        by_cases hr : instructionsOf rest r.1 = []
        · simp [hr]
        · simp [hr]
      · have hk1 : ¬ s = r.1 := fun e => hk e.symm
        simp only [hk, hk1, if_false, List.nil_append]

/-- From the empty table and lines whose records all have something after the first
word, `readInstructions` builds the table that maps each state to the instructions of
the records that begin with it, in the order of the lines; a state no record begins
with is not a key. -/
theorem readInstructionsLoop_table (lines : List Str) (s : Str)
    (hw : ∀ tmp ∈ lines, recordOf tmp ≠ none → wordFollowed tmp) :
    mapAt (readInstructionsLoop lines [] []) s
      = if instructionsOf lines s = [] then none else some (instructionsOf lines s) := by
  rw [readInstructionsLoop_spec lines [] [] s (by unfold keysSorted; exact List.Pairwise.nil)
    hw]
  simp [mapAt]
